import Mathlib

/-!
Verification of the warehouse picker-swarm simulation.

This file shallowly embeds the Python sources (`src/warehouse/structure.py`,
`src/agents/picker_swarm.py`, `src/shared_enums.py`) into Lean and proves or
refutes the frozen specification claims about them.

Modelling conventions:
* grid coordinates are `Int × Int` (Python ints);
* simulation clock values and durations are `ℚ` (Python floats carry small
  decimal values here; the claims at issue do not depend on rounding);
* Python dictionaries used as maps from positions become functions
  `Pos → Option _`; Python sets of positions become `List Pos` used only
  through membership;
* code that can raise (an out-of-range list index) returns `Option`;
* the unbounded A* search loop takes an explicit fuel argument and returns
  `none` when the fuel runs out; theorems quantify over the fuel.
-/

/-- shared_enums.CellType -/
inductive CellType where
  | aisle | shelf | main_hallway | entrance | exit_cell | cross_aisle | wall
deriving DecidableEq, Repr

/-- shared_enums.ItemSize -/
inductive ItemSize where
  | small | medium | large
deriving DecidableEq, Repr

/-- shared_enums.WeightClass -/
inductive WeightClass where
  | light | medium | heavy
deriving DecidableEq, Repr

/-- shared_enums.PickerState -/
inductive PickerState where
  | idle | moving_to_item | picking | moving_to_exit | waiting | exiting
deriving DecidableEq, Repr

abbrev Pos := Int × Int

/-- structure.LargeWarehouse construction parameters (width, depth, levels). -/
structure LargeWarehouse where
  width : Nat
  depth : Nat
  levels : Nat
deriving DecidableEq, Repr

namespace LargeWarehouse

/-- Step 0 of `_create_warehouse_layout`: `layout_grid.fill(WALL)`. -/
def layout0 (_w : LargeWarehouse) (_x _y : Int) : CellType := .wall

/-- Step 1: the main hallway, `x in range(2, width-2)`, three rows centred on
`depth // 2`. -/
def layout1 (w : LargeWarehouse) (x y : Int) : CellType :=
  if 2 ≤ x ∧ x < (w.width : Int) - 2 ∧ (w.depth / 2 : Nat) - 1 ≤ y ∧ y ≤ (w.depth / 2 : Nat) + 1 then
    .main_hallway
  else
    w.layout0 x y

/-- `_create_zone`: a column at offset `x - start_x` is written as shelf when the
offset is 0 or 1 mod 4 and as aisle otherwise (the while loop writes two
columns per iteration, alternating shelf/aisle pairs). -/
def zoneCellType (start_x x : Int) : CellType :=
  if (x - start_x) % 4 < 2 then .shelf else .aisle

/-- Step 2a of `_create_storage_zones`: the upper zone
(`start_x=3, end_x=width-3, start_y=3, end_y=depth//2-2`). -/
def layout2 (w : LargeWarehouse) (x y : Int) : CellType :=
  if 3 ≤ x ∧ x < (w.width : Int) - 3 ∧ 3 ≤ y ∧ y < (w.depth / 2 : Nat) - 2
      ∧ x < (w.width : Int) ∧ y < (w.depth : Int) then
    zoneCellType 3 x
  else
    w.layout1 x y

/-- Step 2b: the lower zone (`start_y=depth//2+3, end_y=depth-3`). -/
def layout3 (w : LargeWarehouse) (x y : Int) : CellType :=
  if 3 ≤ x ∧ x < (w.width : Int) - 3 ∧ (w.depth / 2 : Nat) + 3 ≤ y ∧ y < (w.depth : Int) - 3
      ∧ x < (w.width : Int) ∧ y < (w.depth : Int) then
    zoneCellType 3 x
  else
    w.layout2 x y

/-- Step 3, `_create_entry_exit_points`: entrance cells at
`(0..1, depth//2)` and `(0..1, depth//2+1)`, exit cells at
`(width-1, depth//2)` and `(width-2, depth//2)`. -/
def layout4 (w : LargeWarehouse) (x y : Int) : CellType :=
  if (x = 0 ∨ x = 1) ∧ (y = (w.depth / 2 : Nat) ∨ y = (w.depth / 2 : Nat) + 1) then
    .entrance
  else if (x = (w.width : Int) - 1 ∨ x = (w.width : Int) - 2) ∧ y = (w.depth / 2 : Nat) then
    .exit_cell
  else
    w.layout3 x y

/-- Step 4, `_create_cross_aisles`: `for x in range(8, width-2, 8)`, shelf
cells in the two zone row-bands become cross-aisle cells. -/
def layout5 (w : LargeWarehouse) (x y : Int) : CellType :=
  if (8 ≤ x ∧ x < (w.width : Int) - 2 ∧ x % 8 = 0)
      ∧ ((3 ≤ y ∧ y < (w.depth / 2 : Nat) - 2)
          ∨ ((w.depth / 2 : Nat) + 3 ≤ y ∧ y < (w.depth : Int) - 3))
      ∧ w.layout4 x y = .shelf then
    .cross_aisle
  else
    w.layout4 x y

/-- `LargeWarehouse.get_cell_type`: in-bounds cells read the layout grid,
out-of-bounds coordinates return the wall sentinel. -/
def get_cell_type (w : LargeWarehouse) (x y : Int) : CellType :=
  if 0 ≤ x ∧ x < (w.width : Int) ∧ 0 ≤ y ∧ y < (w.depth : Int) then
    w.layout5 x y
  else
    .wall

/-- `LargeWarehouse.is_walkable`. -/
def is_walkable (w : LargeWarehouse) (x y : Int) : Bool :=
  w.get_cell_type x y ∈ [CellType.aisle, .main_hallway, .cross_aisle, .entrance, .exit_cell]

/-- `LargeWarehouse.entrances` as built by `_create_entry_exit_points`. -/
def entrances (w : LargeWarehouse) : List Pos :=
  [((0 : Int), ((w.depth / 2 : Nat) : Int)), ((0 : Int), ((w.depth / 2 : Nat) : Int) + 1)]

/-- `LargeWarehouse.exit` (the exit landmark `(width-1, depth//2)`). -/
def exit_pos (w : LargeWarehouse) : Pos :=
  (((w.width : Int) - 1), ((w.depth / 2 : Nat) : Int))

end LargeWarehouse

/-- The default warehouse `LargeWarehouse()` (36×36, 3 levels). -/
def w36 : LargeWarehouse := ⟨36, 36, 3⟩

/-- C8: out-of-bounds coordinates give the wall sentinel, and walkability is
exactly membership of the cell type in
{aisle, main hallway, cross-aisle, entrance, exit}; shelf and wall cells
(hence all out-of-bounds cells) are not walkable. -/
theorem c8_cell_type_walkable (w : LargeWarehouse) (x y : Int) :
    (¬ (0 ≤ x ∧ x < (w.width : Int) ∧ 0 ≤ y ∧ y < (w.depth : Int)) →
        w.get_cell_type x y = .wall)
    ∧ (w.is_walkable x y = true ↔
        w.get_cell_type x y ∈ [CellType.aisle, .main_hallway, .cross_aisle, .entrance, .exit_cell])
    ∧ ((w.get_cell_type x y = .shelf ∨ w.get_cell_type x y = .wall) →
        w.is_walkable x y = false) := by
  refine ⟨fun h => ?_, ?_, fun h => ?_⟩
  · simp only [LargeWarehouse.get_cell_type, if_neg h]
  · simp [LargeWarehouse.is_walkable]
  · rcases h with h | h <;> simp [LargeWarehouse.is_walkable, h]

/-- Witness for C8 at concrete inputs: `(-1, 0)` is out of bounds (wall, not
walkable) in the default warehouse, and the entrance cell `(0, 18)` is
walkable. -/
theorem c8_cell_type_walkable_witness :
    w36.get_cell_type (-1) 0 = .wall ∧ w36.is_walkable (-1) 0 = false
    ∧ w36.is_walkable 0 18 = true := by
  refine ⟨(c8_cell_type_walkable w36 (-1) 0).1 (by decide), ?_, by decide⟩
  · exact (c8_cell_type_walkable w36 (-1) 0).2.2 (Or.inr ((c8_cell_type_walkable w36 (-1) 0).1 (by decide)))

/-! ## Storage model (structure.py: Item, StorageCell) -/

/-- structure.Item. -/
structure Item where
  id : String
  size : ItemSize
  weight_class : WeightClass
  daily_picks : ℚ
  category : String
  orientation : Int × Int := (1, 1)
deriving DecidableEq, Repr

/-- `{'small': 1, 'medium': 2, 'large': 4}` (the space-needed map of
`StorageCell.can_store_item`, also the load-point map of `LoadCapacity`). -/
def sizePoints : ItemSize → Nat
  | .small => 1
  | .medium => 2
  | .large => 4

/-- structure.StorageCell (the `max_capacity` dict as a function). -/
structure StorageCell where
  max_capacity : ItemSize → Nat
  current_items : List Item
  level : Nat
  x : Int
  y : Int

namespace StorageCell

/-- Number of current items of a given size (`current_count` in
`can_store_item`). -/
def countSize (c : StorageCell) (s : ItemSize) : Nat :=
  (c.current_items.filter (fun it => it.size = s)).length

/-- Space used in small-item units, as computed by `can_store_item`. -/
def space_used (c : StorageCell) : Nat :=
  c.countSize .large * 4 + c.countSize .medium * 2 + c.countSize .small

/-- `StorageCell.can_store_item`. -/
def can_store_item (c : StorageCell) (item : Item) : Bool :=
  if item.weight_class = .heavy ∧ c.level > 1 then false
  else if item.weight_class = .medium ∧ c.level > 2 then false
  else c.space_used + sizePoints item.size ≤ 4

/-- `StorageCell.add_item`. -/
def add_item (c : StorageCell) (item : Item) : StorageCell × Bool :=
  if c.can_store_item item then
    ({ c with current_items := c.current_items ++ [item] }, true)
  else
    (c, false)

/-- `StorageCell.remove_item` (pops the first item with the given id). -/
def remove_item (c : StorageCell) (item_id : String) : StorageCell × Option Item :=
  match c.current_items.find? (fun it => it.id = item_id) with
  | some it =>
      ({ c with current_items := c.current_items.eraseP (fun x => x.id = item_id) }, some it)
  | none => (c, none)

end StorageCell

/-- A storage operation: place an item or remove one by id. -/
inductive StorageOp where
  | add (item : Item)
  | remove (item_id : String)

/-- Apply one storage operation to a cell, discarding the returned flag/item. -/
def applyStorageOp (c : StorageCell) : StorageOp → StorageCell
  | .add item => (c.add_item item).1
  | .remove iid => (c.remove_item iid).1

/-- The C7 invariant: unit-cost sum at most 4, heavy items only at level ≤ 1,
medium-weight items only at level ≤ 2. -/
def storageInv (c : StorageCell) : Prop :=
  c.space_used ≤ 4
  ∧ (∀ it ∈ c.current_items, it.weight_class = .heavy → c.level ≤ 1)
  ∧ (∀ it ∈ c.current_items, it.weight_class = .medium → c.level ≤ 2)

theorem countSize_append (c : StorageCell) (item : Item) (s : ItemSize) :
    StorageCell.countSize { c with current_items := c.current_items ++ [item] } s
      = c.countSize s + (if item.size = s then 1 else 0) := by
  simp only [StorageCell.countSize, List.filter_append]
  by_cases h : item.size = s <;> simp [h]

theorem space_used_add (c : StorageCell) (item : Item) :
    StorageCell.space_used { c with current_items := c.current_items ++ [item] }
      = c.space_used + sizePoints item.size := by
  simp only [StorageCell.space_used, countSize_append]
  cases item.size <;> simp [sizePoints] <;> ring

theorem storageInv_add (c : StorageCell) (item : Item) (h : storageInv c) :
    storageInv (c.add_item item).1 := by
  rcases h with ⟨hs, hh, hm⟩
  unfold StorageCell.add_item
  by_cases hc : c.can_store_item item = true
  · rw [if_pos hc]
    unfold StorageCell.can_store_item at hc
    by_cases h1 : item.weight_class = .heavy ∧ c.level > 1
    · rw [if_pos h1] at hc; exact absurd hc (by decide)
    · by_cases h2 : item.weight_class = .medium ∧ c.level > 2
      · rw [if_neg h1, if_pos h2] at hc; exact absurd hc (by decide)
      · rw [if_neg h1, if_neg h2, decide_eq_true_eq] at hc
        refine ⟨?_, ?_, ?_⟩
        · show StorageCell.space_used _ ≤ 4
          rw [space_used_add]; omega
        · intro it hit hw
          show c.level ≤ 1
          rcases List.mem_append.1 hit with hmem | hmem
          · exact hh it hmem hw
          · simp only [List.mem_singleton] at hmem; subst hmem
            by_contra hl
            exact h1 ⟨hw, by omega⟩
        · intro it hit hw
          show c.level ≤ 2
          rcases List.mem_append.1 hit with hmem | hmem
          · exact hm it hmem hw
          · simp only [List.mem_singleton] at hmem; subst hmem
            by_contra hl
            exact h2 ⟨hw, by omega⟩
  · rw [if_neg hc]
    exact ⟨hs, hh, hm⟩

theorem countSize_eraseP (c : StorageCell) (iid : String) (s : ItemSize) :
    StorageCell.countSize { c with current_items := c.current_items.eraseP (fun x => x.id = iid) } s
      ≤ c.countSize s := by
  simp only [StorageCell.countSize]
  exact List.Sublist.length_le (List.Sublist.filter _ (List.eraseP_sublist _))

theorem storageInv_remove (c : StorageCell) (iid : String) (h : storageInv c) :
    storageInv (c.remove_item iid).1 := by
  rcases h with ⟨hs, hh, hm⟩
  unfold StorageCell.remove_item
  cases hf : c.current_items.find? (fun it => it.id = iid) with
  | none => exact ⟨hs, hh, hm⟩
  | some it =>
      refine ⟨?_, ?_, ?_⟩
      · calc StorageCell.space_used _
            ≤ c.space_used := by
              simp only [StorageCell.space_used]
              have h1 := countSize_eraseP c iid .large
              have h2 := countSize_eraseP c iid .medium
              have h3 := countSize_eraseP c iid .small
              omega
          _ ≤ 4 := hs
      · intro it' hit' hw
        exact hh it' (List.mem_of_mem_eraseP hit') hw
      · intro it' hit' hw
        exact hm it' (List.mem_of_mem_eraseP hit') hw

/-- C7: starting from an empty storage location, any sequence of
`add_item`/`remove_item` operations keeps the sum of contained items'
unit-costs at most 4, never lets a heavy item sit at level > 1, and never
lets a medium-weight item sit at level > 2. -/
theorem c7_storage_invariant (c0 : StorageCell) (h0 : c0.current_items = [])
    (ops : List StorageOp) :
    let c := ops.foldl applyStorageOp c0
    c.space_used ≤ 4
    ∧ (∀ it ∈ c.current_items, it.weight_class = .heavy → c.level ≤ 1)
    ∧ (∀ it ∈ c.current_items, it.weight_class = .medium → c.level ≤ 2) := by
  have hinv : storageInv c0 := by
    refine ⟨?_, ?_, ?_⟩ <;> simp [StorageCell.space_used, StorageCell.countSize, h0]
  have : ∀ (ops : List StorageOp) (c : StorageCell), storageInv c →
      storageInv (ops.foldl applyStorageOp c) := by
    intro ops
    induction ops with
    | nil => intro c hc; exact hc
    | cons op rest ih =>
        intro c hc
        cases op with
        | add item => exact ih _ (storageInv_add c item hc)
        | remove iid => exact ih _ (storageInv_remove c iid hc)
  exact this ops c0 hinv

/-- Witness for C7: a level-3 cell, adding a small light item, a heavy item
(rejected by the weight rule), a large item (rejected by capacity), then
removing the small item. -/
theorem c7_storage_invariant_witness :
    let c0 : StorageCell := ⟨sizePoints, [], 3, 5, 5⟩
    let itS : Item := ⟨"S", .small, .light, 1, "cat", (1, 1)⟩
    let itH : Item := ⟨"H", .small, .heavy, 1, "cat", (1, 1)⟩
    let itL : Item := ⟨"L", .large, .light, 1, "cat", (1, 1)⟩
    let ops : List StorageOp := [.add itS, .add itH, .add itL, .remove "S"]
    let c := ops.foldl applyStorageOp c0
    c.space_used ≤ 4
    ∧ (∀ it ∈ c.current_items, it.weight_class = .heavy → c.level ≤ 1)
    ∧ (∀ it ∈ c.current_items, it.weight_class = .medium → c.level ≤ 2) :=
  c7_storage_invariant ⟨sizePoints, [], 3, 5, 5⟩ rfl _

/-! ## Load model (picker_swarm.py: OrderItem, PickOrder, LoadCapacity) -/

/-- picker_swarm.OrderItem (`location` is `(x, y, level)`). -/
structure OrderItem where
  item_id : String
  item_name : String
  size : ItemSize
  location : Int × Int × Nat
  pick_time : ℚ
deriving DecidableEq, Repr

/-- picker_swarm.PickOrder. -/
structure PickOrder where
  order_id : String
  items : List OrderItem
  priority : Nat := 1
  created_time : ℚ := 0
deriving DecidableEq, Repr

/-- picker_swarm.LoadCapacity. -/
structure LoadCapacity where
  items_carried : List OrderItem := []
  load_points : Nat := 0
  max_points : Nat := 4
deriving DecidableEq, Repr

namespace LoadCapacity

/-- The default `LoadCapacity()`. -/
def init : LoadCapacity := {}

/-- `LoadCapacity.can_carry`. -/
def can_carry (l : LoadCapacity) (item : OrderItem) : Bool :=
  l.load_points + sizePoints item.size ≤ l.max_points

/-- `LoadCapacity.add_item`. -/
def add_item (l : LoadCapacity) (item : OrderItem) : LoadCapacity × Bool :=
  if l.can_carry item then
    ({ l with items_carried := l.items_carried ++ [item],
              load_points := l.load_points + sizePoints item.size }, true)
  else
    (l, false)

/-- `LoadCapacity.get_movement_penalty` (0.1 seconds per load point). -/
def get_movement_penalty (l : LoadCapacity) : ℚ :=
  (l.load_points : ℚ) * (1 / 10)

end LoadCapacity

/-- Sum of the unit-costs of a list of order items. -/
def loadPointsOf (its : List OrderItem) : Nat :=
  (its.map (fun it => sizePoints it.size)).sum

theorem load_inv_step (l : LoadCapacity) (item : OrderItem)
    (h : l.load_points = loadPointsOf l.items_carried ∧ l.load_points ≤ l.max_points
          ∧ l.max_points = 4) :
    ((l.add_item item).1).load_points = loadPointsOf ((l.add_item item).1).items_carried
      ∧ ((l.add_item item).1).load_points ≤ ((l.add_item item).1).max_points
      ∧ ((l.add_item item).1).max_points = 4 := by
  rcases h with ⟨h1, h2, h3⟩
  unfold LoadCapacity.add_item
  by_cases hc : l.can_carry item = true
  · rw [if_pos hc]
    unfold LoadCapacity.can_carry at hc
    rw [decide_eq_true_eq] at hc
    refine ⟨?_, ?_, ?_⟩
    · show l.load_points + sizePoints item.size = loadPointsOf (l.items_carried ++ [item])
      simp [loadPointsOf, h1]
    · exact hc
    · exact h3
  · rw [if_neg hc]
    exact ⟨h1, h2, h3⟩

/-- C6: `can_carry` holds exactly when the current load-units plus the item's
unit-cost fit in 4; starting from the empty load, any sequence of `add_item`
calls keeps the load-units equal to the sum of the accepted items' unit-costs
and at most 4; a rejected `add_item` returns `false` and leaves the load
unchanged. -/
theorem c6_load_invariant :
    (∀ (l : LoadCapacity) (item : OrderItem), l.max_points = 4 →
        (l.can_carry item = true ↔ l.load_points + sizePoints item.size ≤ 4))
    ∧ (∀ its : List OrderItem,
        let l := its.foldl (fun l it => (l.add_item it).1) LoadCapacity.init
        l.load_points = loadPointsOf l.items_carried ∧ l.load_points ≤ 4)
    ∧ (∀ (l : LoadCapacity) (item : OrderItem), l.can_carry item = false →
        l.add_item item = (l, false)) := by
  refine ⟨?_, ?_, ?_⟩
  · intro l item h4
    simp [LoadCapacity.can_carry, h4]
  · intro its
    have key : ∀ (its : List OrderItem) (l : LoadCapacity),
        (l.load_points = loadPointsOf l.items_carried ∧ l.load_points ≤ l.max_points
          ∧ l.max_points = 4) →
        let l' := its.foldl (fun l it => (l.add_item it).1) l
        l'.load_points = loadPointsOf l'.items_carried ∧ l'.load_points ≤ l'.max_points
          ∧ l'.max_points = 4 := by
      intro its
      induction its with
      | nil => intro l h; exact h
      | cons it rest ih => intro l h; exact ih _ (load_inv_step l it h)
    have h0 : (LoadCapacity.init.load_points = loadPointsOf LoadCapacity.init.items_carried
        ∧ LoadCapacity.init.load_points ≤ LoadCapacity.init.max_points
        ∧ LoadCapacity.init.max_points = 4) := by
      refine ⟨?_, ?_, rfl⟩ <;> simp [LoadCapacity.init, loadPointsOf]
    have := key its LoadCapacity.init h0
    exact ⟨this.1, this.2.2 ▸ this.2.1⟩
  · intro l item h
    simp [LoadCapacity.add_item, h]

/-- Witness for C6: a fresh load can carry a small item (1 + 0 ≤ 4), adding
[small, large] accepts only the small item (1 ≤ 4), and a full load rejects a
medium item unchanged. -/
theorem c6_load_invariant_witness :
    (LoadCapacity.init.can_carry ⟨"A", "a", .small, (3, 3, 1), 1⟩ = true)
    ∧ (let l := [(⟨"A", "a", .small, (3, 3, 1), 1⟩ : OrderItem),
                 ⟨"B", "b", .large, (4, 4, 1), 1⟩].foldl
          (fun l it => (l.add_item it).1) LoadCapacity.init
       l.load_points = loadPointsOf l.items_carried ∧ l.load_points ≤ 4)
    ∧ ((⟨[], 4, 4⟩ : LoadCapacity).add_item ⟨"C", "c", .medium, (5, 5, 1), 1⟩
        = (⟨[], 4, 4⟩, false)) := by
  refine ⟨?_, c6_load_invariant.2.1 _, ?_⟩
  · exact (c6_load_invariant.1 LoadCapacity.init ⟨"A", "a", .small, (3, 3, 1), 1⟩ rfl).2 (by decide)
  · exact c6_load_invariant.2.2 _ _ (by decide)

/-! ## A* pathfinding (picker_swarm.AStar)

The Python `heapq` open set is modelled as a list of `(f, position)` entries
from which `popMin` removes the least entry under the tuple order (`f` first,
position lexicographically after — exactly Python's tuple comparison).  The
`came_from`, `g_score` and `f_score` dictionaries are `Pos → Option _` maps.
The unbounded `while open_set:` loop takes an explicit fuel and answers
`none` when the fuel runs out; a dictionary `KeyError` (impossible in
reachable states) is also modelled as `none`. -/

/-- `AStar.heuristic`: Manhattan distance (integer-valued on the grid). -/
def heuristic (p q : Pos) : Nat :=
  (p.1 - q.1).natAbs + (p.2 - q.2).natAbs

/-- `AStar.get_neighbors`: the four candidates in N, S, E, W order, filtered
by walkability. -/
def get_neighbors (w : LargeWarehouse) (pos : Pos) : List Pos :=
  [(pos.1, pos.2 + 1), (pos.1, pos.2 - 1), (pos.1 + 1, pos.2), (pos.1 - 1, pos.2)].filter
    (fun q => w.is_walkable q.1 q.2)

/-- A heap entry: (f-score, position). -/
abbrev AEntry := Nat × Pos

/-- Python's tuple comparison on `(f, (x, y))`. -/
def entryLE (a b : AEntry) : Bool :=
  a.1 < b.1 ∨ (a.1 = b.1 ∧ (a.2.1 < b.2.1 ∨ (a.2.1 = b.2.1 ∧ a.2.2 ≤ b.2.2)))

/-- `heapq.heappop`: remove a least entry under `entryLE`. -/
def popMin : List AEntry → Option (AEntry × List AEntry)
  | [] => none
  | e :: rest =>
      match popMin rest with
      | none => some (e, [])
      | some (m, rest') => if entryLE e m then some (e, rest) else some (m, e :: rest')

/-- The mutable state of `AStar.find_path`'s main loop. -/
structure AStarState where
  open_set : List AEntry
  came_from : Pos → Option Pos
  g_score : Pos → Option Nat
  f_score : Pos → Option Nat

/-- Path reconstruction (`while current in came_from: ...; path.append(start);
path.reverse()`), with fuel for the unbounded loop. -/
def reconstructAux (cf : Pos → Option Pos) (start : Pos) :
    Nat → Pos → List Pos → Option (List Pos)
  | fuel, cur, acc =>
      match cf cur with
      | none => some ((acc ++ [start]).reverse)
      | some prev =>
          match fuel with
          | 0 => none
          | f + 1 => reconstructAux cf start f prev (acc ++ [cur])

/-- One relaxation step of the `for neighbor in self.get_neighbors(current)`
loop body: skip blocked neighbours, compute `tentative_g_score`, and on an
improvement update the three score maps and push the new heap entry.  Returns
`none` on the (unreachable) `g_score[current]` KeyError. -/
def relaxStep (w : LargeWarehouse) (goal : Pos) (blocked : List Pos) (current : Pos)
    (st : AStarState) (nb : Pos) : Option AStarState :=
  if blocked.contains nb then some st
  else
    match st.g_score current with
    | none => none
    | some gc =>
        let tentative := gc + 1
        let improves := match st.g_score nb with
          | none => true
          | some gn => tentative < gn
        if improves then
          some { open_set := st.open_set ++ [(tentative + heuristic nb goal, nb)],
                 came_from := fun p => if p = nb then some current else st.came_from p,
                 g_score := fun p => if p = nb then some tentative else st.g_score p,
                 f_score := fun p => if p = nb then some (tentative + heuristic nb goal)
                                     else st.f_score p }
        else some st

/-- One expansion of `current`: relax each of its walkable neighbours in
order. -/
def expandNeighbors (w : LargeWarehouse) (goal : Pos) (blocked : List Pos)
    (current : Pos) (s : AStarState) : Option AStarState :=
  (get_neighbors w current).foldlM (relaxStep w goal blocked current) s

/-- The `while open_set:` loop of `AStar.find_path`. -/
def findPathAux (w : LargeWarehouse) (start goal : Pos) (blocked : List Pos) :
    Nat → AStarState → Option (List Pos)
  | fuel, s =>
      match popMin s.open_set with
      | none => some []
      | some (e, rest) =>
          if e.2 = goal then reconstructAux s.came_from start fuel e.2 []
          else
            match fuel with
            | 0 => none
            | f + 1 =>
                match expandNeighbors w goal blocked e.2 { s with open_set := rest } with
                | none => none
                | some s' => findPathAux w start goal blocked f s'

/-- `AStar.find_path` (with explicit search fuel). -/
def find_path (w : LargeWarehouse) (fuel : Nat) (start goal : Pos)
    (blocked : List Pos) : Option (List Pos) :=
  if start = goal then some [start]
  else
    findPathAux w start goal blocked fuel
      { open_set := [(0, start)],
        came_from := fun _ => none,
        g_score := fun p => if p = start then some 0 else none,
        f_score := fun p => if p = start then some (heuristic start goal) else none }

/-! ### Spec-side path predicates and order lemmas -/

/-- One admissible A* move: `v` is a walkable 4-neighbour of `u` that is not
in the transient blocked set. -/
def AEdge (w : LargeWarehouse) (blocked : List Pos) (u v : Pos) : Prop :=
  v ∈ get_neighbors w u ∧ blocked.contains v = false

/-- `HasPath w blocked a b k`: some valid route of exactly `k` moves from `a`
to `b` (a list of `k + 1` cells chained by `AEdge`). -/
def HasPath (w : LargeWarehouse) (blocked : List Pos) (a b : Pos) (k : Nat) : Prop :=
  ∃ l : List Pos, l.head? = some a ∧ l.getLast? = some b
    ∧ List.Chain' (AEdge w blocked) l ∧ l.length = k + 1

theorem entryLE_refl (a : AEntry) : entryLE a a := by
  simp [entryLE]

theorem entryLE_total (a b : AEntry) : entryLE a b ∨ entryLE b a := by
  simp only [entryLE, decide_eq_true_eq, Bool.or_eq_true, Bool.and_eq_true]
  omega

theorem entryLE_trans {a b c : AEntry} (h1 : entryLE a b) (h2 : entryLE b c) :
    entryLE a c := by
  simp only [entryLE, decide_eq_true_eq, Bool.or_eq_true, Bool.and_eq_true] at *
  omega

theorem entryLE_fst {a b : AEntry} (h : entryLE a b) : a.1 ≤ b.1 := by
  simp only [entryLE, decide_eq_true_eq, Bool.or_eq_true, Bool.and_eq_true] at h
  omega

theorem popMin_none {l : List AEntry} : popMin l = none ↔ l = [] := by
  cases l with
  | nil => simp [popMin]
  | cons e rest =>
      simp only [popMin]
      constructor
      · intro h
        cases hr : popMin rest with
        | none => simp [hr] at h
        | some p =>
            rcases p with ⟨m, rest'⟩
            rw [hr] at h
            by_cases hle : entryLE e m <;> simp [hle] at h
      · intro h; cases h

theorem popMin_spec {l : List AEntry} {e : AEntry} {rest : List AEntry}
    (h : popMin l = some (e, rest)) :
    e ∈ l ∧ (∀ x ∈ l, entryLE e x) ∧ (∀ x ∈ rest, x ∈ l)
      ∧ (∀ x ∈ l, x = e ∨ x ∈ rest) := by
  induction l generalizing e rest with
  | nil => simp [popMin] at h
  | cons a tl ih =>
      simp only [popMin] at h
      cases hr : popMin tl with
      | none =>
          rw [hr] at h
          replace h : some (a, ([] : List AEntry)) = some (e, rest) := h
          have htl : tl = [] := popMin_none.1 hr
          subst htl
          simp only [Option.some.injEq, Prod.mk.injEq] at h
          rcases h with ⟨he, hrest⟩
          subst he; subst hrest
          refine ⟨List.mem_cons_self _ _, ?_, by simp, ?_⟩
          · intro x hx
            rcases List.mem_cons.1 hx with h | h
            · subst h; exact entryLE_refl _
            · simp at h
          · intro x hx
            rcases List.mem_cons.1 hx with h | h
            · exact Or.inl h
            · simp at h
      | some p =>
          rcases p with ⟨m, rest'⟩
          rw [hr] at h
          replace h : (if entryLE a m = true then some (a, tl) else some (m, a :: rest'))
              = some (e, rest) := h
          rcases ih hr with ⟨hmem, hmin, hsub, hcomp⟩
          by_cases hle : entryLE a m = true
          case pos =>
            rw [if_pos hle] at h
            simp only [Option.some.injEq, Prod.mk.injEq] at h
            rcases h with ⟨he, hrest⟩
            subst he; subst hrest
            refine ⟨List.mem_cons_self _ _, ?_, fun x hx => List.mem_cons_of_mem _ hx, ?_⟩
            · intro x hx
              rcases List.mem_cons.1 hx with h | h
              · subst h; exact entryLE_refl _
              · exact entryLE_trans hle (hmin x h)
            · intro x hx
              rcases List.mem_cons.1 hx with h | h
              · exact Or.inl h
              · exact Or.inr h
          case neg =>
            rw [if_neg hle] at h
            simp only [Option.some.injEq, Prod.mk.injEq] at h
            rcases h with ⟨he, hrest⟩
            subst he; subst hrest
            have hma : entryLE m a := by
              rcases entryLE_total a m with h | h
              · exact absurd h hle
              · exact h
            refine ⟨List.mem_cons_of_mem _ hmem, ?_, ?_, ?_⟩
            · intro x hx
              rcases List.mem_cons.1 hx with h | h
              · subst h; exact hma
              · exact hmin x h
            · intro x hx
              rcases List.mem_cons.1 hx with h | h
              · subst h; exact List.mem_cons_self _ _
              · exact List.mem_cons_of_mem _ (hsub x h)
            · intro x hx
              rcases List.mem_cons.1 hx with h | h
              · exact Or.inr (h ▸ List.mem_cons_self _ _)
              · rcases hcomp x h with h' | h'
                · exact Or.inl h'
                · exact Or.inr (List.mem_cons_of_mem _ h')

theorem heuristic_self (p : Pos) : heuristic p p = 0 := by
  simp [heuristic]

theorem heuristic_triangle (a b c : Pos) :
    heuristic a c ≤ heuristic a b + heuristic b c := by
  simp only [heuristic]
  omega

theorem mem_get_neighbors {w : LargeWarehouse} {u v : Pos}
    (h : v ∈ get_neighbors w u) :
    heuristic u v = 1 ∧ w.is_walkable v.1 v.2 = true := by
  simp only [get_neighbors, List.mem_filter, List.mem_cons, List.not_mem_nil, or_false] at h
  rcases h with ⟨hmem, hwalk⟩
  refine ⟨?_, hwalk⟩
  rcases hmem with h | h | h | h <;> subst h <;> simp only [heuristic] <;> omega

theorem neighbor_ne {w : LargeWarehouse} {u v : Pos}
    (h : v ∈ get_neighbors w u) : v ≠ u := by
  intro he
  have := (mem_get_neighbors h).1
  rw [he, heuristic_self] at this
  exact absurd this (by decide)

theorem get_neighbors_nodup (w : LargeWarehouse) (u : Pos) :
    (get_neighbors w u).Nodup := by
  refine List.Nodup.filter _ ?_
  have h1 : (u.1, u.2 + 1) ≠ (u.1, u.2 - 1) := by
    intro h; rw [Prod.ext_iff] at h; omega
  have h2 : (u.1, u.2 + 1) ≠ (u.1 + 1, u.2) := by
    intro h; rw [Prod.ext_iff] at h; omega
  have h3 : (u.1, u.2 + 1) ≠ (u.1 - 1, u.2) := by
    intro h; rw [Prod.ext_iff] at h; omega
  have h4 : (u.1, u.2 - 1) ≠ (u.1 + 1, u.2) := by
    intro h; rw [Prod.ext_iff] at h; omega
  have h5 : (u.1, u.2 - 1) ≠ (u.1 - 1, u.2) := by
    intro h; rw [Prod.ext_iff] at h; omega
  have h6 : (u.1 + 1, u.2) ≠ (u.1 - 1, u.2) := by
    intro h; rw [Prod.ext_iff] at h; omega
  simp [List.nodup_cons, h1, h2, h3, h4, h5, h6]

/-- The A* loop invariant: the start has settled score 0 and no parent; every
open entry's position is scored and its key dominates `g + h`; every scored
node either still has a good open entry or has all its outgoing edges
relaxed; parent links record strictly decreasing scores along real edges;
every scored node other than the start has a parent. -/
def astarInv (w : LargeWarehouse) (start goal : Pos) (blocked : List Pos)
    (s : AStarState) : Prop :=
  s.g_score start = some 0
  ∧ s.came_from start = none
  ∧ (∀ f v, (f, v) ∈ s.open_set →
      v = start ∨ ∃ gv, s.g_score v = some gv ∧ gv + heuristic v goal ≤ f)
  ∧ (∀ v gv, s.g_score v = some gv →
      (∃ f, (f, v) ∈ s.open_set ∧ f ≤ gv + heuristic v goal)
      ∨ (∀ u, AEdge w blocked v u → ∃ gu, s.g_score u = some gu ∧ gu ≤ gv + 1))
  ∧ (∀ v u, s.came_from v = some u →
      ∃ gv gu, s.g_score v = some gv ∧ s.g_score u = some gu ∧ gu + 1 ≤ gv
        ∧ AEdge w blocked u v)
  ∧ (∀ v gv, s.g_score v = some gv → v = start ∨ (s.came_from v).isSome)

/-- Effect of relaxing a duplicate-free list of candidate neighbours of
`current`: the fold succeeds; `current`'s score is untouched; every node is
either untouched (score and parent) or was improved to `gc + 1` with parent
`current`; candidates that are not blocked end with score at most `gc + 1`;
the open list grows, and every new entry is an exact `g + h` entry for an
improved candidate. -/
theorem relax_char (w : LargeWarehouse) (goal : Pos) (blocked : List Pos)
    (current : Pos) (todo : List Pos) (st0 : AStarState) (gc : Nat)
    (hnd : todo.Nodup) (hcur : current ∉ todo)
    (hg : st0.g_score current = some gc) :
    ∃ st', todo.foldlM (relaxStep w goal blocked current) st0 = some st'
      ∧ st'.g_score current = some gc
      ∧ (∀ v, (st'.g_score v = st0.g_score v ∧ st'.came_from v = st0.came_from v)
          ∨ (v ∈ todo ∧ blocked.contains v = false ∧ st'.g_score v = some (gc + 1)
              ∧ st'.came_from v = some current
              ∧ (gc + 1 + heuristic v goal, v) ∈ st'.open_set
              ∧ ∀ gn, st0.g_score v = some gn → gc + 1 < gn))
      ∧ (∀ v ∈ todo, blocked.contains v = false →
          ∃ gv, st'.g_score v = some gv ∧ gv ≤ gc + 1)
      ∧ (∀ e ∈ st0.open_set, e ∈ st'.open_set)
      ∧ (∀ e ∈ st'.open_set, e ∈ st0.open_set
          ∨ ∃ v, v ∈ todo ∧ e = (gc + 1 + heuristic v goal, v)
              ∧ st'.g_score v = some (gc + 1)) := by
  induction todo generalizing st0 with
  | nil =>
      refine ⟨st0, rfl, hg, ?_, ?_, ?_, ?_⟩
      · intro v; exact Or.inl ⟨rfl, rfl⟩
      · intro v hv; simp at hv
      · intro e he; exact he
      · intro e he; exact Or.inl he
  | cons nb rest' ih =>
      have hnbr : nb ∉ rest' := (List.nodup_cons.1 hnd).1
      have hndr : rest'.Nodup := (List.nodup_cons.1 hnd).2
      have hcne : current ≠ nb := fun h => hcur (h ▸ List.mem_cons_self _ _)
      have hcur' : current ∉ rest' := fun h => hcur (List.mem_cons_of_mem _ h)
      -- evaluate the first relaxation step
      by_cases hb : blocked.contains nb = true
      case pos =>
        -- blocked neighbour: skipped
        have hstep : relaxStep w goal blocked current st0 nb = some st0 := by
          unfold relaxStep
          rw [if_pos hb]
        rcases ih st0 hndr hcur' hg with
          ⟨st', hfold, hgc, hchar, hrelax, hmono, hopen⟩
        refine ⟨st', ?_, hgc, ?_, ?_, hmono, ?_⟩
        · simpa [List.foldlM, hstep] using hfold
        · intro v
          rcases hchar v with h | h
          · exact Or.inl h
          · exact Or.inr ⟨List.mem_cons_of_mem _ h.1, h.2.1, h.2.2.1, h.2.2.2.1, h.2.2.2.2⟩
        · intro v hv hbv
          rcases List.mem_cons.1 hv with h | h
          · subst h; rw [hbv] at hb; exact absurd hb (by decide)
          · exact hrelax v h hbv
        · intro e he
          rcases hopen e he with h | h
          · exact Or.inl h
          · rcases h with ⟨v, hv, he', hg'⟩
            exact Or.inr ⟨v, List.mem_cons_of_mem _ hv, he', hg'⟩
      case neg =>
        have hb' : blocked.contains nb = false := by
          cases h : blocked.contains nb
          · rfl
          · exact absurd h hb
        -- does the step improve nb's score?
        by_cases himp : (match st0.g_score nb with
            | none => true
            | some gn => decide (gc + 1 < gn)) = true
        case pos =>
          -- improvement: the maps are updated and an entry is pushed
          set st1 : AStarState :=
            { open_set := st0.open_set ++ [(gc + 1 + heuristic nb goal, nb)],
              came_from := fun p => if p = nb then some current else st0.came_from p,
              g_score := fun p => if p = nb then some (gc + 1) else st0.g_score p,
              f_score := fun p => if p = nb then some (gc + 1 + heuristic nb goal)
                                  else st0.f_score p } with hst1
          have hstep : relaxStep w goal blocked current st0 nb = some st1 := by
            simp only [relaxStep, hb', Bool.false_eq_true, if_false, hg]
            rw [if_pos himp]
          have hg1 : st1.g_score current = some gc := by
            simp only [hst1, if_neg hcne]
            exact hg
          rcases ih st1 hndr hcur' hg1 with
            ⟨st', hfold, hgc, hchar, hrelax, hmono, hopen⟩
          have hg1nb : st1.g_score nb = some (gc + 1) := by
            simp [hst1]
          have hcf1nb : st1.came_from nb = some current := by
            simp [hst1]
          have hnbfinal : st'.g_score nb = some (gc + 1) ∧ st'.came_from nb = some current := by
            rcases hchar nb with h | h
            · exact ⟨h.1.trans hg1nb, h.2.trans hcf1nb⟩
            · exact absurd h.1 hnbr
          refine ⟨st', ?_, hgc, ?_, ?_, ?_, ?_⟩
          · simpa [List.foldlM, hstep] using hfold
          · -- per-node characterization
            intro v
            by_cases hvnb : v = nb
            · subst hvnb
              refine Or.inr ⟨List.mem_cons_self _ _, hb', hnbfinal.1, hnbfinal.2, ?_, ?_⟩
              · refine hmono _ ?_
                show _ ∈ st0.open_set ++ [(gc + 1 + heuristic v goal, v)]
                exact List.mem_append_right _ (List.mem_singleton_self _)
              · intro gn hgn
                revert himp
                rw [hgn]
                simp
            · rcases hchar v with h | h
              · left
                constructor
                · rw [h.1]; simp [hst1, hvnb]
                · rw [h.2]; simp [hst1, hvnb]
              · refine Or.inr ⟨List.mem_cons_of_mem _ h.1, h.2.1, h.2.2.1, h.2.2.2.1,
                  h.2.2.2.2.1, ?_⟩
                intro gn hgn
                refine h.2.2.2.2.2 gn ?_
                simp [hst1, hvnb, hgn]
          · -- relaxation bound for every candidate
            intro v hv hbv
            rcases List.mem_cons.1 hv with h | h
            · subst h
              exact ⟨gc + 1, hnbfinal.1, le_refl _⟩
            · exact hrelax v h hbv
          · -- the open list only grows
            intro e he
            refine hmono e ?_
            simp [hst1, he]
          · -- new entries are exact g+h entries of improved candidates
            intro e he
            rcases hopen e he with h | h
            · have h2 : e ∈ st0.open_set ++ [(gc + 1 + heuristic nb goal, nb)] := h
              rcases List.mem_append.1 h2 with h' | h'
              · exact Or.inl h'
              · simp only [List.mem_singleton] at h'
                exact Or.inr ⟨nb, List.mem_cons_self _ _, h', hnbfinal.1⟩
            · rcases h with ⟨v, hv, he', hg'⟩
              exact Or.inr ⟨v, List.mem_cons_of_mem _ hv, he', hg'⟩
        case neg =>
          -- no improvement: the state is unchanged
          have hgn : ∃ gn, st0.g_score nb = some gn ∧ gn ≤ gc + 1 := by
            cases h : st0.g_score nb with
            | none => rw [h] at himp; simp at himp
            | some gn =>
                rw [h] at himp
                simp only [decide_eq_true_eq] at himp
                exact ⟨gn, rfl, by omega⟩
          have hstep : relaxStep w goal blocked current st0 nb = some st0 := by
            simp only [relaxStep, hb', Bool.false_eq_true, if_false, hg]
            rw [if_neg himp]
          rcases ih st0 hndr hcur' hg with
            ⟨st', hfold, hgc, hchar, hrelax, hmono, hopen⟩
          refine ⟨st', ?_, hgc, ?_, ?_, hmono, ?_⟩
          · simpa [List.foldlM, hstep] using hfold
          · intro v
            rcases hchar v with h | h
            · exact Or.inl h
            · exact Or.inr ⟨List.mem_cons_of_mem _ h.1, h.2.1, h.2.2.1, h.2.2.2.1, h.2.2.2.2⟩
          · intro v hv hbv
            rcases List.mem_cons.1 hv with h | h
            · subst h
              rcases hgn with ⟨gn, hgn0, hle⟩
              rcases hchar v with h | h
              · exact ⟨gn, h.1.trans hgn0, hle⟩
              · exact ⟨gc + 1, h.2.2.1, le_refl _⟩
            · exact hrelax v h hbv
          · intro e he
            rcases hopen e he with h | h
            · exact Or.inl h
            · rcases h with ⟨v, hv, he', hg'⟩
              exact Or.inr ⟨v, List.mem_cons_of_mem _ hv, he', hg'⟩

/-- Expanding the node popped from the open list preserves the A* loop
invariant. -/
theorem expand_preserves_inv (w : LargeWarehouse) (start goal : Pos)
    (blocked : List Pos) (s : AStarState) (fe : Nat) (current : Pos)
    (rest : List AEntry) (hinv : astarInv w start goal blocked s)
    (hpop : popMin s.open_set = some ((fe, current), rest)) :
    ∃ s', expandNeighbors w goal blocked current { s with open_set := rest } = some s'
      ∧ astarInv w start goal blocked s'
      ∧ (∀ e ∈ s'.open_set, e ∈ s.open_set ∨ e.2 ∈ get_neighbors w current) := by
  obtain ⟨hg0, hcf0, haux2, haux, hcf, hdom⟩ := hinv
  obtain ⟨hmem, _hmin, hsub, hcomp⟩ := popMin_spec hpop
  have hgcx : ∃ gc, s.g_score current = some gc := by
    rcases haux2 fe current hmem with h | ⟨gv, hgv, _⟩
    · exact ⟨0, h ▸ hg0⟩
    · exact ⟨gv, hgv⟩
  obtain ⟨gc, hgc⟩ := hgcx
  have hcurnotin : current ∉ get_neighbors w current := fun h => (neighbor_ne h) rfl
  have hg0' : ({ s with open_set := rest } : AStarState).g_score current = some gc := hgc
  obtain ⟨st', hfold, hgcur, hchar, hrelax, hmono, hopen⟩ :=
    relax_char w goal blocked current (get_neighbors w current)
      { s with open_set := rest } gc (get_neighbors_nodup w current) hcurnotin hg0'
  refine ⟨st', hfold, ⟨?_, ?_, ?_, ?_, ?_, ?_⟩, ?_⟩
  · -- g_score start = some 0
    rcases hchar start with h | h
    · exact h.1.trans hg0
    · exact absurd (h.2.2.2.2.2 0 hg0) (by omega)
  · -- came_from start = none
    rcases hchar start with h | h
    · exact h.2.trans hcf0
    · exact absurd (h.2.2.2.2.2 0 hg0) (by omega)
  · -- AUX2: every open entry dominates g + h
    intro f v hfv
    rcases hopen (f, v) hfv with h | ⟨u, _hu, he, hgu⟩
    · have hvs : (f, v) ∈ s.open_set := hsub _ h
      rcases haux2 f v hvs with h' | ⟨gv, hgv, hle⟩
      · exact Or.inl h'
      · rcases hchar v with hc | hc
        · exact Or.inr ⟨gv, hc.1.trans hgv, hle⟩
        · refine Or.inr ⟨gc + 1, hc.2.2.1, ?_⟩
          have := hc.2.2.2.2.2 gv hgv
          omega
    · rcases Prod.mk.injEq .. ▸ he with ⟨hf, hv⟩
      subst hf; subst hv
      exact Or.inr ⟨gc + 1, hgu, le_refl _⟩
  · -- AUX: scored nodes keep a good entry or are fully relaxed
    intro v gv' hgv'
    rcases hchar v with hc | hc
    · have hgvs : s.g_score v = some gv' := hc.1 ▸ hgv'
      rcases haux v gv' hgvs with ⟨f, hf, hle⟩ | hrel
      · rcases hcomp _ hf with heq | hrest
        · -- the witness entry is the popped one: current is now fully relaxed
          have hveq : v = current := (Prod.mk.injEq .. ▸ heq).2
          subst hveq
          have hgveq : gv' = gc := by
            rw [hgc] at hgvs; exact (Option.some.injEq .. ▸ hgvs.symm)
          subst hgveq
          refine Or.inr ?_
          intro u hu
          rcases hrelax u hu.1 hu.2 with ⟨gu, hgu, hgule⟩
          exact ⟨gu, hgu, hgule⟩
        · exact Or.inl ⟨f, hmono _ hrest, hle⟩
      · refine Or.inr ?_
        intro u hu
        rcases hrel u hu with ⟨gu, hgu, hgule⟩
        rcases hchar u with hcu | hcu
        · exact ⟨gu, hcu.1.trans hgu, hgule⟩
        · refine ⟨gc + 1, hcu.2.2.1, ?_⟩
          have := hcu.2.2.2.2.2 gu hgu
          omega
    · -- v was just improved: its fresh exact entry is in the open list
      have : gv' = gc + 1 := by
        rw [hc.2.2.1] at hgv'; exact (Option.some.injEq .. ▸ hgv'.symm)
      subst this
      exact Or.inl ⟨gc + 1 + heuristic v goal, hc.2.2.2.2.1, le_refl _⟩
  · -- CF: parent links decrease and follow edges
    intro v u hcf'
    rcases hchar v with hc | hc
    · have hold : s.came_from v = some u := hc.2 ▸ hcf'
      rcases hcf v u hold with ⟨gv, gu, hgv, hgu, hlt, hedge⟩
      have hgv' : st'.g_score v = some gv := hc.1.trans hgv
      rcases hchar u with hcu | hcu
      · exact ⟨gv, gu, hgv', hcu.1.trans hgu, hlt, hedge⟩
      · refine ⟨gv, gc + 1, hgv', hcu.2.2.1, ?_, hedge⟩
        have := hcu.2.2.2.2.2 gu hgu
        omega
    · have hueq : u = current := by
        rw [hc.2.2.2.1] at hcf'; exact (Option.some.injEq .. ▸ hcf'.symm)
      subst hueq
      exact ⟨gc + 1, gc, hc.2.2.1, hgcur, le_refl _, hc.1, hc.2.1⟩
  · -- DOMCF
    intro v gv' hgv'
    rcases hchar v with hc | hc
    · rcases hdom v gv' (hc.1 ▸ hgv') with h | h
      · exact Or.inl h
      · right
        rw [hc.2]
        exact h
    · right
      rw [hc.2.2.2.1]
      rfl
  · -- origin of open entries: surviving or freshly pushed neighbour entries
    intro e he
    rcases hopen e he with h | ⟨v, hv, he', _⟩
    · exact Or.inl (hsub _ h)
    · right
      rw [he']
      exact hv

/-- The initial A* state satisfies the loop invariant. -/
theorem astarInv_init (w : LargeWarehouse) (start goal : Pos) (blocked : List Pos) :
    astarInv w start goal blocked
      { open_set := [(0, start)],
        came_from := fun _ => none,
        g_score := fun p => if p = start then some 0 else none,
        f_score := fun p => if p = start then some (heuristic start goal) else none } := by
  refine ⟨by simp, rfl, ?_, ?_, ?_, ?_⟩
  · intro f v hfv
    simp only [List.mem_singleton, Prod.mk.injEq] at hfv
    exact Or.inl hfv.2
  · intro v gv hgv
    change (if v = start then some 0 else none) = some gv at hgv
    by_cases hv : v = start
    · refine Or.inl ⟨0, ?_, Nat.zero_le _⟩
      rw [hv]
      exact List.mem_singleton_self _
    · rw [if_neg hv] at hgv
      cases hgv
  · intro v u h
    cases h
  · intro v gv hgv
    change (if v = start then some 0 else none) = some gv at hgv
    by_cases hv : v = start
    · exact Or.inl hv
    · rw [if_neg hv] at hgv
      cases hgv

/-- Along any valid chain of moves the Manhattan distance between the two
endpoints is at most the number of moves. -/
theorem chain_heuristic_bound (w : LargeWarehouse) (blocked : List Pos) :
    ∀ (l : List Pos) (a b : Pos), List.Chain' (AEdge w blocked) l →
      l.head? = some a → l.getLast? = some b → heuristic a b ≤ l.length - 1 := by
  intro l
  induction l with
  | nil => intro a b _ ha _; cases ha
  | cons x tl ih =>
      intro a b hchain ha hb
      have hxa : x = a := by simpa using ha
      subst hxa
      cases tl with
      | nil =>
          have hba : b = x := by simpa using hb.symm
          subst hba
          simp [heuristic_self]
      | cons y tl' =>
          have hedge : AEdge w blocked x y := (List.chain'_cons.1 hchain).1
          have hchain' : List.Chain' (AEdge w blocked) (y :: tl') :=
            (List.chain'_cons.1 hchain).2
          have hb' : (y :: tl').getLast? = some b := by
            simpa [List.getLast?_cons_cons] using hb
          have hyb := ih y b hchain' rfl hb'
          have h1 : heuristic x y = 1 := (mem_get_neighbors hedge.1).1
          have := heuristic_triangle x y b
          simp only [List.length_cons] at *
          omega

/-- If the goal has been popped from the open list with key `fe`, its settled
score is bounded by `m + n` for any node `v` on a valid `n`-move chain to the
goal whose score is at most `m`. -/
theorem goal_bound_chain (w : LargeWarehouse) (goal : Pos) (blocked : List Pos)
    (s : AStarState) (fe gg : Nat)
    (haux : ∀ v gv, s.g_score v = some gv →
      (∃ f, (f, v) ∈ s.open_set ∧ f ≤ gv + heuristic v goal)
      ∨ (∀ u, AEdge w blocked v u → ∃ gu, s.g_score u = some gu ∧ gu ≤ gv + 1))
    (hmin : ∀ x ∈ s.open_set, fe ≤ x.1)
    (hgg : s.g_score goal = some gg) (hggf : gg ≤ fe) :
    ∀ (l : List Pos) (v : Pos) (m : Nat), List.Chain' (AEdge w blocked) l →
      l.head? = some v → l.getLast? = some goal →
      (∃ gv, s.g_score v = some gv ∧ gv ≤ m) →
      gg ≤ m + (l.length - 1) := by
  intro l
  induction l with
  | nil => intro v m _ hv _ _; cases hv
  | cons x tl ih =>
      intro v m hchain hv hlast hgv
      have hxv : x = v := by simpa using hv
      subst hxv
      rcases hgv with ⟨gv, hgv, hgvm⟩
      cases tl with
      | nil =>
          have : goal = x := by simpa using hlast.symm
          subst this
          rw [hgv] at hgg
          have : gv = gg := Option.some.inj hgg
          simp only [List.length_cons, List.length_nil]
          omega
      | cons y tl' =>
          have hedge : AEdge w blocked x y := (List.chain'_cons.1 hchain).1
          have hchain' : List.Chain' (AEdge w blocked) (y :: tl') :=
            (List.chain'_cons.1 hchain).2
          have hlast' : (y :: tl').getLast? = some goal := by
            simpa [List.getLast?_cons_cons] using hlast
          rcases haux x gv hgv with ⟨f, hf, hfle⟩ | hrel
          · -- x still has an open entry: bound via heap minimality
            have hhx : heuristic x goal ≤ (x :: y :: tl').length - 1 :=
              chain_heuristic_bound w blocked _ x goal hchain hv hlast
            have hfe := hmin _ hf
            simp only [List.length_cons] at *
            omega
          · -- x fully relaxed: descend one edge
            rcases hrel y hedge with ⟨gu, hgu, hgule⟩
            have := ih y (m + 1) hchain' rfl hlast' ⟨gu, hgu, by omega⟩
            simp only [List.length_cons] at *
            omega

/-- Properties of the reconstruction loop when it stops: the parent map has
run out at the start node. -/
theorem reconstruct_stop (w : LargeWarehouse) (blocked : List Pos)
    (s : AStarState) (start goal : Pos) (gg : Nat)
    (hcf : ∀ v u, s.came_from v = some u →
      ∃ gv gu, s.g_score v = some gv ∧ s.g_score u = some gu ∧ gu + 1 ≤ gv
        ∧ AEdge w blocked u v)
    (hdom : ∀ v gv, s.g_score v = some gv → v = start ∨ (s.came_from v).isSome)
    (cur : Pos) (acc : List Pos) (gc : Nat)
    (hgc : s.g_score cur = some gc)
    (hchain : List.Chain' (fun a b => s.came_from a = some b) (acc ++ [cur]))
    (hhead : (acc ++ [cur]).head? = some goal)
    (hbudget : gc + acc.length ≤ gg)
    (hstop : s.came_from cur = none) :
    ((acc ++ [start]).reverse).head? = some start
      ∧ ((acc ++ [start]).reverse).getLast? = some goal
      ∧ List.Chain' (AEdge w blocked) ((acc ++ [start]).reverse)
      ∧ ((acc ++ [start]).reverse).length ≤ gg + 1
      ∧ (acc ++ [start]).reverse ≠ [] := by
  have hcs : cur = start := by
    rcases hdom cur gc hgc with h | h
    · exact h
    · rw [hstop] at h; cases h
  subst hcs
  refine ⟨?_, ?_, ?_, ?_, ?_⟩
  · rw [List.head?_reverse, List.getLast?_concat]
  · rw [List.getLast?_reverse]
    exact hhead
  · rw [List.chain'_reverse]
    refine List.Chain'.imp ?_ hchain
    intro a b hab
    obtain ⟨gv, gu, _, _, _, hedge⟩ := hcf a b hab
    exact hedge
  · simp only [List.length_reverse, List.length_append, List.length_singleton]
    omega
  · simp

/-- Soundness of the reconstruction loop: a returned path runs from the start
to the goal along valid edges and takes at most `gg` moves, `gg` being the
settled score of the node reconstruction starts from (plus the budget already
consumed by `acc`). -/
theorem reconstruct_sound (w : LargeWarehouse) (blocked : List Pos)
    (s : AStarState) (start goal : Pos) (gg : Nat)
    (hcf : ∀ v u, s.came_from v = some u →
      ∃ gv gu, s.g_score v = some gv ∧ s.g_score u = some gu ∧ gu + 1 ≤ gv
        ∧ AEdge w blocked u v)
    (hdom : ∀ v gv, s.g_score v = some gv → v = start ∨ (s.came_from v).isSome) :
    ∀ (fuel : Nat) (cur : Pos) (acc : List Pos) (gc : Nat) (p : List Pos),
      s.g_score cur = some gc →
      List.Chain' (fun a b => s.came_from a = some b) (acc ++ [cur]) →
      (acc ++ [cur]).head? = some goal →
      gc + acc.length ≤ gg →
      reconstructAux s.came_from start fuel cur acc = some p →
      p.head? = some start ∧ p.getLast? = some goal
        ∧ List.Chain' (AEdge w blocked) p ∧ p.length ≤ gg + 1 ∧ p ≠ [] := by
  intro fuel
  induction fuel with
  | zero =>
      intro cur acc gc p hgc hchain hhead hbudget hrec
      unfold reconstructAux at hrec
      cases hstop : s.came_from cur with
      | none =>
          rw [hstop] at hrec
          replace hrec : some ((acc ++ [start]).reverse) = some p := hrec
          have hp : p = (acc ++ [start]).reverse := by injection hrec.symm
          subst hp
          exact reconstruct_stop w blocked s start goal gg hcf hdom cur acc gc hgc
            hchain hhead hbudget hstop
      | some prev =>
          rw [hstop] at hrec
          cases hrec
  | succ f ih =>
      intro cur acc gc p hgc hchain hhead hbudget hrec
      unfold reconstructAux at hrec
      cases hstop : s.came_from cur with
      | none =>
          rw [hstop] at hrec
          replace hrec : some ((acc ++ [start]).reverse) = some p := hrec
          have hp : p = (acc ++ [start]).reverse := by injection hrec.symm
          subst hp
          exact reconstruct_stop w blocked s start goal gg hcf hdom cur acc gc hgc
            hchain hhead hbudget hstop
      | some prev =>
          rw [hstop] at hrec
          replace hrec : reconstructAux s.came_from start f prev (acc ++ [cur]) = some p := hrec
          rcases hcf cur prev hstop with ⟨gv, gu, hgv, hgu, hlt, _hedge⟩
          have hgveq : gv = gc := by
            rw [hgc] at hgv
            exact (Option.some.inj hgv).symm
          subst hgveq
          refine ih prev (acc ++ [cur]) gu p hgu ?_ ?_ ?_ hrec
          · refine (List.chain'_append).2 ⟨hchain, List.chain'_singleton _, ?_⟩
            intro x hx y hy
            have hx' : x = cur := by
              rw [List.getLast?_concat] at hx
              exact Option.some.inj (Option.mem_def.1 hx).symm
            have hy' : y = prev := by
              simp only [List.head?_cons, Option.mem_def, Option.some.injEq] at hy
              exact hy.symm
            subst hx'; subst hy'
            exact hstop
          · rw [List.head?_append_of_ne_nil _ (by simp)]
            exact hhead
          · simp only [List.length_append, List.length_singleton]
            omega

/-- Soundness of the A* main loop: under the loop invariant, a returned
non-empty path runs from start to goal along valid unblocked moves, and is at
least as short as any valid route. -/
theorem findPathAux_sound (w : LargeWarehouse) (start goal : Pos)
    (blocked : List Pos) :
    ∀ (fuel : Nat) (s : AStarState) (p : List Pos),
      astarInv w start goal blocked s → start ≠ goal →
      findPathAux w start goal blocked fuel s = some p → p ≠ [] →
      p.head? = some start ∧ p.getLast? = some goal
        ∧ List.Chain' (AEdge w blocked) p
        ∧ (∀ k, HasPath w blocked start goal k → p.length ≤ k + 1) := by
  intro fuel
  induction fuel with
  | zero =>
      intro s p hinv hne hrun hpne
      unfold findPathAux at hrun
      cases hpop : popMin s.open_set with
      | none =>
          rw [hpop] at hrun
          replace hrun : some ([] : List Pos) = some p := hrun
          exact absurd (Option.some.inj hrun).symm hpne
      | some er =>
          rcases er with ⟨⟨fe, cur⟩, rest⟩
          rw [hpop] at hrun
          by_cases hcg : cur = goal
          case neg =>
            replace hrun : (if cur = goal then reconstructAux s.came_from start 0 cur []
                else none) = some p := hrun
            rw [if_neg hcg] at hrun
            cases hrun
          case pos =>
            subst hcg
            replace hrun : (if cur = cur then reconstructAux s.came_from start 0 cur []
                else none) = some p := hrun
            rw [if_pos rfl] at hrun
            obtain ⟨hg0, hcf0, haux2, haux, hcf, hdom⟩ := hinv
            obtain ⟨hmem, hmin, _, _⟩ := popMin_spec hpop
            have hgg : ∃ gg, s.g_score cur = some gg ∧ gg ≤ fe := by
              rcases haux2 fe cur hmem with h | ⟨gv, hgv, hle⟩
              · exact absurd h.symm hne
              · exact ⟨gv, hgv, by rw [heuristic_self] at hle; omega⟩
            obtain ⟨gg, hgg, hggf⟩ := hgg
            have hrec := reconstruct_sound w blocked s start cur gg hcf hdom 0 cur [] gg p
              hgg (List.chain'_singleton _) rfl (by simp) hrun
            refine ⟨hrec.1, hrec.2.1, hrec.2.2.1, ?_⟩
            intro k hk
            rcases hk with ⟨l, hlh, hll, hlc, hlen⟩
            have hb := goal_bound_chain w cur blocked s fe gg haux
              (fun x hx => entryLE_fst (hmin x hx)) hgg hggf l start 0 hlc hlh hll
              ⟨0, hg0, le_refl 0⟩
            have hlenp := hrec.2.2.2.1
            rw [hlen] at hb
            simp only [Nat.add_sub_cancel] at hb
            omega
  | succ f ih =>
      intro s p hinv hne hrun hpne
      unfold findPathAux at hrun
      cases hpop : popMin s.open_set with
      | none =>
          rw [hpop] at hrun
          replace hrun : some ([] : List Pos) = some p := hrun
          exact absurd (Option.some.inj hrun).symm hpne
      | some er =>
          rcases er with ⟨⟨fe, cur⟩, rest⟩
          rw [hpop] at hrun
          by_cases hcg : cur = goal
          case pos =>
            subst hcg
            replace hrun : (if cur = cur then reconstructAux s.came_from start (f + 1) cur []
                else match expandNeighbors w cur blocked cur { s with open_set := rest } with
                     | none => none
                     | some s' => findPathAux w start cur blocked f s') = some p := hrun
            rw [if_pos rfl] at hrun
            obtain ⟨hg0, hcf0, haux2, haux, hcf, hdom⟩ := hinv
            obtain ⟨hmem, hmin, _, _⟩ := popMin_spec hpop
            have hgg : ∃ gg, s.g_score cur = some gg ∧ gg ≤ fe := by
              rcases haux2 fe cur hmem with h | ⟨gv, hgv, hle⟩
              · exact absurd h.symm hne
              · exact ⟨gv, hgv, by rw [heuristic_self] at hle; omega⟩
            obtain ⟨gg, hgg, hggf⟩ := hgg
            have hrec := reconstruct_sound w blocked s start cur gg hcf hdom (f + 1) cur [] gg p
              hgg (List.chain'_singleton _) rfl (by simp) hrun
            refine ⟨hrec.1, hrec.2.1, hrec.2.2.1, ?_⟩
            intro k hk
            rcases hk with ⟨l, hlh, hll, hlc, hlen⟩
            have hb := goal_bound_chain w cur blocked s fe gg haux
              (fun x hx => entryLE_fst (hmin x hx)) hgg hggf l start 0 hlc hlh hll
              ⟨0, hg0, le_refl 0⟩
            have hlenp := hrec.2.2.2.1
            rw [hlen] at hb
            simp only [Nat.add_sub_cancel] at hb
            omega
          case neg =>
            replace hrun : (if cur = goal then reconstructAux s.came_from start (f + 1) cur []
                else match expandNeighbors w goal blocked cur { s with open_set := rest } with
                     | none => none
                     | some s' => findPathAux w start goal blocked f s') = some p := hrun
            rw [if_neg hcg] at hrun
            cases hexp : expandNeighbors w goal blocked cur { s with open_set := rest } with
            | none => rw [hexp] at hrun; cases hrun
            | some s' =>
                rw [hexp] at hrun
                obtain ⟨s'', hs'', hinv', _⟩ :=
                  expand_preserves_inv w start goal blocked s fe cur rest hinv hpop
                rw [hexp] at hs''
                have heq : s' = s'' := Option.some.inj hs''
                subst heq
                exact ih s' p hinv' hne hrun hpne

/-- C2: whenever `AStar.find_path` returns a non-empty path, that path starts
at `start`, ends at `goal`, and each consecutive pair of cells is a
4-connected walkable (and unblocked) step; moreover the path is at least as
short as every valid route, so when some route of exactly Manhattan-distance
many moves exists (an unobstructed straight/L-shaped route — in particular
whenever the blocked set is empty and the grid is open between the two
cells), the returned path's length as a route (its number of moves, i.e.
cells minus one) equals the Manhattan distance. -/
theorem c2_astar_path_correct (w : LargeWarehouse) (fuel : Nat)
    (start goal : Pos) (blocked : List Pos) (p : List Pos)
    (hp : find_path w fuel start goal blocked = some p) (hpne : p ≠ []) :
    p.head? = some start ∧ p.getLast? = some goal
    ∧ List.Chain' (AEdge w blocked) p
    ∧ (∀ k, HasPath w blocked start goal k → p.length ≤ k + 1)
    ∧ (HasPath w blocked start goal (heuristic start goal) →
        p.length = heuristic start goal + 1) := by
  unfold find_path at hp
  by_cases hsg : start = goal
  case pos =>
    rw [if_pos hsg] at hp
    have hpe : p = [start] := (Option.some.inj hp).symm
    subst hpe
    refine ⟨rfl, by rw [hsg]; rfl, List.chain'_singleton _, ?_, ?_⟩
    · intro k _; simp
    · intro _
      simp [hsg, heuristic_self]
  case neg =>
    rw [if_neg hsg] at hp
    have h := findPathAux_sound w start goal blocked fuel _ p
      (astarInv_init w start goal blocked) hsg hp hpne
    refine ⟨h.1, h.2.1, h.2.2.1, h.2.2.2, ?_⟩
    intro hshort
    have hup := h.2.2.2 _ hshort
    have hlow := chain_heuristic_bound w blocked p start goal h.2.2.1 h.1 h.2.1
    have hplen : 1 ≤ p.length := by
      cases p with
      | nil => exact absurd rfl hpne
      | cons a tl => simp
    omega

instance (w : LargeWarehouse) (blocked : List Pos) : DecidableRel (AEdge w blocked) :=
  fun u v => inferInstanceAs (Decidable (v ∈ get_neighbors w u ∧ blocked.contains v = false))

set_option maxHeartbeats 2000000 in
/-- Witness for C2 on the default warehouse: the hallway route from `(2,18)`
to `(4,18)` with no blocked cells is found, and its length is the Manhattan
distance (2 moves, 3 cells). -/
theorem c2_astar_path_correct_witness :
    find_path w36 8 (2, 18) (4, 18) [] = some [(2, 18), (3, 18), (4, 18)]
    ∧ ([((2 : Int), (18 : Int)), (3, 18), (4, 18)]).length
        = heuristic (2, 18) (4, 18) + 1 := by
  have hfp : find_path w36 8 ((2 : Int), (18 : Int)) ((4 : Int), (18 : Int)) []
      = some [(2, 18), (3, 18), (4, 18)] := by rfl
  refine ⟨hfp, ?_⟩
  have h := c2_astar_path_correct w36 8 (2, 18) (4, 18) [] _ hfp (by decide)
  have hchain : List.Chain' (AEdge w36 []) [((2 : Int), (18 : Int)), (3, 18), (4, 18)] := by
    refine List.chain'_cons.2 ⟨⟨by decide, by decide⟩, ?_⟩
    exact List.chain'_cons.2 ⟨⟨by decide, by decide⟩, List.chain'_singleton _⟩
  exact h.2.2.2.2 ⟨[(2, 18), (3, 18), (4, 18)], rfl, rfl, hchain, by decide⟩

/-! ## Picker agent (picker_swarm.WarehousePicker) -/

/-- picker_swarm.WarehousePicker's mutable fields (ids are numbers; the
Python `PICKER_nn` strings only matter through distinctness). -/
structure Picker where
  picker_id : Nat
  position : Pos
  target_position : Option Pos
  current_path : List Pos
  path_index : Nat
  state : PickerState
  load : LoadCapacity
  current_order : Option PickOrder
  current_item_index : Nat
  last_move_time : ℚ
  pick_start_time : ℚ
  wait_start_time : ℚ
  total_distance : Nat
  total_pick_time : ℚ
  total_wait_time : ℚ
  orders_completed : Nat
deriving DecidableEq, Repr

instance : Inhabited Picker :=
  ⟨⟨0, (0, 0), none, [], 0, .idle, LoadCapacity.init, none, 0, 0, 0, 0, 0, 0, 0, 0⟩⟩

/-- `WarehousePicker.__init__`: idle at the first entrance with empty load and
zeroed statistics. -/
def init_picker (w : LargeWarehouse) (pid : Nat) : Picker :=
  { picker_id := pid
    position := w.entrances.headI
    target_position := none
    current_path := []
    path_index := 0
    state := .idle
    load := LoadCapacity.init
    current_order := none
    current_item_index := 0
    last_move_time := 0
    pick_start_time := 0
    wait_start_time := 0
    total_distance := 0
    total_pick_time := 0
    total_wait_time := 0
    orders_completed := 0 }

/-- `WarehousePicker._check_for_collisions`: a direct collision (a peer on
the next cell) or a head-on swap blocks the move; with the cursor past the
end of the path there is nothing to collide with. -/
def check_for_collisions (p : Picker) (others : List Picker) : Bool :=
  match p.current_path.get? p.path_index with
  | none => false
  | some next_position =>
      others.any (fun q =>
        if q.picker_id = p.picker_id then false
        else if q.position = next_position then true
        else
          match q.current_path.get? q.path_index with
          | some qnext => decide (qnext = p.position ∧ next_position = q.position)
          | none => false)

/-- `WarehousePicker._replan_path`: block peers' positions (and, under
congestion avoidance, their next three path cells), search, and fall back to
an unconstrained search when blocked; the successful path is stored without
its leading start cell, the fallback path is stored whole. -/
def blocked_positions_for (p : Picker) (others : List Picker)
    (avoid_congestion : Bool) : List Pos :=
  others.foldl (fun acc q =>
    if q.picker_id ≠ p.picker_id then
      acc ++ [q.position]
        ++ (if avoid_congestion then (q.current_path.drop q.path_index).take 3 else [])
    else acc) []

def replan_path (w : LargeWarehouse) (fuel : Nat) (p : Picker)
    (others : List Picker) (avoid_congestion : Bool) : Picker :=
  match p.target_position with
  | none => p
  | some tgt =>
      let new_path :=
        (find_path w fuel p.position tgt
          (blocked_positions_for p others avoid_congestion)).getD []
      if new_path ≠ [] then
        { p with current_path := new_path.drop 1, path_index := 0 }
      else
        { p with current_path := (find_path w fuel p.position tgt []).getD [],
                 path_index := 0 }

/-- `WarehousePicker._plan_path_to_exit`. -/
def plan_path_to_exit (w : LargeWarehouse) (p : Picker) : Picker :=
  { p with target_position := some w.exit_pos, state := .moving_to_exit }

/-- `WarehousePicker._plan_next_item`: exhausted or missing order → head to
the exit; next item too heavy for the current load → head to the exit first;
otherwise target the item's (shelf) cell. -/
def plan_next_item (w : LargeWarehouse) (p : Picker) : Picker :=
  match p.current_order with
  | none => plan_path_to_exit w p
  | some ord =>
      match ord.items.get? p.current_item_index with
      | none => plan_path_to_exit w p
      | some next_item =>
          if p.load.can_carry next_item then
            { p with target_position := some (next_item.location.1, next_item.location.2.1),
                     state := .moving_to_item }
          else plan_path_to_exit w p

/-- `WarehousePicker._start_picking`. -/
def start_picking (t : ℚ) (p : Picker) : Picker :=
  { p with state := .picking, pick_start_time := t }

/-- `WarehousePicker._start_exiting`. -/
def start_exiting (t : ℚ) (p : Picker) : Picker :=
  { p with state := .exiting, pick_start_time := t }

/-- `WarehousePicker._update_movement`. -/
def update_movement (w : LargeWarehouse) (fuel : Nat) (t : ℚ) (p : Picker)
    (others : List Picker) : Picker × Bool :=
  match p.target_position with
  | none => (p, false)
  | some tgt =>
      let p1 := if p.current_path.isEmpty || decide (p.path_index ≥ p.current_path.length)
        then replan_path w fuel p others false else p
      let move_delay : ℚ := 1 + p1.load.get_movement_penalty
      if t - p1.last_move_time < move_delay then (p1, false)
      else if check_for_collisions p1 others then
        ({ p1 with state := .waiting, wait_start_time := t }, false)
      else
        let p2 := match p1.current_path.get? p1.path_index with
          | some new_position =>
              { p1 with position := new_position, path_index := p1.path_index + 1,
                        last_move_time := t, total_distance := p1.total_distance + 1 }
          | none => p1
        if p2.position = tgt then
          (match p2.state with
           | .moving_to_item => start_picking t p2
           | .moving_to_exit => start_exiting t p2
           | _ => p2, false)
        else (p2, false)

/-- `WarehousePicker._update_picking` (`items[current_item_index]` raises on
an out-of-range cursor, modelled as `none`). -/
def update_picking (w : LargeWarehouse) (t : ℚ) (p : Picker) : Option (Picker × Bool) :=
  match p.current_order with
  | none => some (p, false)
  | some ord =>
      match ord.items.get? p.current_item_index with
      | none => none
      | some current_item =>
          if t - p.pick_start_time ≥ current_item.pick_time then
            some (plan_next_item w
              { p with load := (p.load.add_item current_item).1,
                       total_pick_time := p.total_pick_time + current_item.pick_time,
                       current_item_index := p.current_item_index + 1 }, false)
          else some (p, false)

/-- `WarehousePicker._update_waiting`: when the obstruction has cleared,
accumulate the wait and resume — unconditionally in `MOVING_TO_ITEM` whenever
a target exists; after more than 5 time units, replan with congestion
avoidance and resume likewise. -/
def update_waiting (w : LargeWarehouse) (fuel : Nat) (t : ℚ) (p : Picker)
    (others : List Picker) : Picker × Bool :=
  if ¬ check_for_collisions p others then
    ({ p with total_wait_time := p.total_wait_time + (t - p.wait_start_time),
              state := if p.target_position.isSome then .moving_to_item else .idle }, false)
  else if t - p.wait_start_time > 5 then
    let p1 := replan_path w fuel p others true
    ({ p1 with state := if p1.target_position.isSome then .moving_to_item else .idle }, false)
  else (p, false)

/-- `WarehousePicker._update_exiting`: after a 2-unit dwell the order is
counted completed and cleared unconditionally and the agent is reset to the
first entrance. -/
def update_exiting (w : LargeWarehouse) (t : ℚ) (p : Picker) : Picker × Bool :=
  if t - p.pick_start_time ≥ 2 then
    ({ p with orders_completed := p.orders_completed + 1,
              current_order := none,
              current_item_index := 0,
              load := LoadCapacity.init,
              state := .idle,
              position := w.entrances.headI }, true)
  else (p, false)

/-- `WarehousePicker.update`: dispatch on the current state. -/
def Picker.update (w : LargeWarehouse) (fuel : Nat) (t : ℚ) (p : Picker)
    (others : List Picker) : Option (Picker × Bool) :=
  match p.state with
  | .idle => some (p, false)
  | .moving_to_item => some (update_movement w fuel t p others)
  | .picking => update_picking w t p
  | .moving_to_exit => some (update_movement w fuel t p others)
  | .waiting => some (update_waiting w fuel t p others)
  | .exiting => some (update_exiting w t p)

/-- `WarehousePicker.assign_order`. -/
def assign_order (w : LargeWarehouse) (p : Picker) (order : PickOrder) : Picker × Bool :=
  if p.state = .idle ∧ p.current_order = none then
    (plan_next_item w
      { p with current_order := some order, current_item_index := 0,
               load := LoadCapacity.init }, true)
  else (p, false)

/-! ## Swarm coordinator (picker_swarm.PickerSwarmManager) -/

/-- picker_swarm.PickerSwarmManager. -/
structure PickerSwarmManager where
  pickers : List Picker
  pending_orders : List PickOrder
  completed_orders : List PickOrder
  current_time : ℚ
deriving DecidableEq, Repr

/-- `PickerSwarmManager.__init__`. -/
def mk_manager (w : LargeWarehouse) (num_pickers : Nat) : PickerSwarmManager :=
  { pickers := (List.range num_pickers).map (fun i => init_picker w (i + 1)),
    pending_orders := [],
    completed_orders := [],
    current_time := 0 }

/-- `PickerSwarmManager.add_order` (stamps the order with the current clock). -/
def add_order (m : PickerSwarmManager) (order : PickOrder) : PickerSwarmManager :=
  { m with pending_orders :=
      m.pending_orders ++ [{ order with created_time := m.current_time }] }

/-- The indices of `available_pickers = [p for p in pickers if p.state == IDLE]`. -/
def idle_indices (ps : List Picker) : List Nat :=
  (List.range ps.length).filter (fun i =>
    match ps.get? i with
    | some p => decide (p.state = .idle)
    | none => false)

/-- The `while pending_orders and available_pickers:` pairing loop of
`assign_orders`; both the order and the picker are consumed each round. -/
def assign_orders_loop (w : LargeWarehouse) :
    List PickOrder → List Nat → List Picker → List Picker × List PickOrder
  | o :: os, i :: is_, ps =>
      let pr := assign_order w ((ps.get? i).getD default) o
      assign_orders_loop w os is_ (ps.set i pr.1)
  | os, _, ps => (ps, os)

/-- `PickerSwarmManager.assign_orders`. -/
def assign_orders (w : LargeWarehouse) (m : PickerSwarmManager) : PickerSwarmManager :=
  { m with
      pickers := (assign_orders_loop w m.pending_orders (idle_indices m.pickers) m.pickers).1,
      pending_orders :=
        (assign_orders_loop w m.pending_orders (idle_indices m.pickers) m.pickers).2 }

/-- `for picker in self.pickers: picker.update(...)` — the list is mutated in
place, so each agent's update sees the already-updated earlier agents; the
agent count never changes during a tick, so the loop runs once per starting
index (`k` counts the remaining iterations). -/
def update_pickers_go (w : LargeWarehouse) (fuel : Nat) (t : ℚ) :
    Nat → Nat → List Picker → Option (List Picker)
  | _, 0, ps => some ps
  | i, k + 1, ps =>
      match ps.get? i with
      | none => some ps
      | some p =>
          match Picker.update w fuel t p ps with
          | none => none
          | some pr => update_pickers_go w fuel t (i + 1) k (ps.set i pr.1)

def update_pickers_loop (w : LargeWarehouse) (fuel : Nat) (t : ℚ)
    (ps : List Picker) : Option (List Picker) :=
  update_pickers_go w fuel t 0 ps.length ps

/-- `PickerSwarmManager.update_simulation` (one tick): advance the clock,
update every picker in list order, then assign pending orders. -/
def update_simulation (w : LargeWarehouse) (fuel : Nat) (m : PickerSwarmManager)
    (time_step : ℚ) : Option PickerSwarmManager :=
  match update_pickers_loop w fuel (m.current_time + time_step) m.pickers with
  | none => none
  | some ps' =>
      some (assign_orders w
        { m with current_time := m.current_time + time_step, pickers := ps' })

/-- A sequence of ticks with the given step sizes. -/
def run_ticks (w : LargeWarehouse) (fuel : Nat) :
    List ℚ → PickerSwarmManager → Option PickerSwarmManager
  | [], m => some m
  | dt :: rest, m =>
      match update_simulation w fuel m dt with
      | none => none
      | some m' => run_ticks w fuel rest m'

/-- A* never reaches a non-walkable goal other than the start: every open
entry is the start or a walkable cell, so the goal (a shelf cell, say) is
never popped and the search drains to the empty path (or runs out of fuel). -/
theorem findPathAux_unreachable (w : LargeWarehouse) (start goal : Pos)
    (blocked : List Pos) (hgw : w.is_walkable goal.1 goal.2 = false)
    (hsg : goal ≠ start) :
    ∀ (fuel : Nat) (s : AStarState), astarInv w start goal blocked s →
      (∀ e ∈ s.open_set, e.2 = start ∨ w.is_walkable e.2.1 e.2.2 = true) →
      findPathAux w start goal blocked fuel s = some []
        ∨ findPathAux w start goal blocked fuel s = none := by
  intro fuel
  induction fuel with
  | zero =>
      intro s _hinv hop
      cases hpop : popMin s.open_set with
      | none =>
          left
          unfold findPathAux
          rw [hpop]
      | some er =>
          rcases er with ⟨⟨fe, cur⟩, rest⟩
          have hne : ¬ (cur = goal) := by
            intro h
            subst h
            rcases hop _ (popMin_spec hpop).1 with h | h
            · exact hsg h
            · rw [hgw] at h; exact absurd h (by decide)
          right
          unfold findPathAux
          rw [hpop]
          show (if cur = goal then reconstructAux s.came_from start 0 cur [] else none) = none
          rw [if_neg hne]
  | succ f ih =>
      intro s hinv hop
      cases hpop : popMin s.open_set with
      | none =>
          left
          unfold findPathAux
          rw [hpop]
      | some er =>
          rcases er with ⟨⟨fe, cur⟩, rest⟩
          have hne : ¬ (cur = goal) := by
            intro h
            subst h
            rcases hop _ (popMin_spec hpop).1 with h | h
            · exact hsg h
            · rw [hgw] at h; exact absurd h (by decide)
          obtain ⟨s', hs', hinv', horig⟩ :=
            expand_preserves_inv w start goal blocked s fe cur rest hinv hpop
          have hop' : ∀ e ∈ s'.open_set, e.2 = start ∨ w.is_walkable e.2.1 e.2.2 = true := by
            intro e he
            rcases horig e he with h | h
            · exact hop e h
            · exact Or.inr (mem_get_neighbors h).2
          have hred : findPathAux w start goal blocked (f + 1) s
              = findPathAux w start goal blocked f s' := by
            conv_lhs => unfold findPathAux; rw [hpop]
            show (if cur = goal then reconstructAux s.came_from start (f + 1) cur []
                  else match expandNeighbors w goal blocked cur { s with open_set := rest } with
                       | none => none
                       | some s2 => findPathAux w start goal blocked f s2)
                = findPathAux w start goal blocked f s'
            rw [if_neg hne, hs']
          rw [hred]
          exact ih s' hinv' hop'

/-- `find_path` to a non-walkable goal distinct from the start yields the
empty path (or exhausts its fuel). -/
theorem find_path_unreachable (w : LargeWarehouse) (fuel : Nat) (start goal : Pos)
    (blocked : List Pos) (hgw : w.is_walkable goal.1 goal.2 = false)
    (hsg : goal ≠ start) :
    find_path w fuel start goal blocked = some [] ∨ find_path w fuel start goal blocked = none := by
  unfold find_path
  rw [if_neg (fun h => hsg h.symm)]
  refine findPathAux_unreachable w start goal blocked hgw hsg fuel _
    (astarInv_init w start goal blocked) ?_
  intro e he
  simp only [List.mem_singleton] at he
  subst he
  exact Or.inl rfl

/-- A picker in a moving state whose target cell is not walkable (and not its
own position) makes no progress: replanning yields the empty path, so the
update leaves everything but the cleared path fields unchanged. -/
theorem update_movement_stuck (w : LargeWarehouse) (fuel : Nat) (t : ℚ)
    (p : Picker) (others : List Picker) (tgt : Pos)
    (htgt : p.target_position = some tgt)
    (hgw : w.is_walkable tgt.1 tgt.2 = false)
    (hpos : p.position ≠ tgt)
    (hpath : p.current_path = []) :
    update_movement w fuel t p others
      = ({ p with current_path := [], path_index := 0 }, false) := by
  unfold update_movement
  rw [htgt]
  have hrep : replan_path w fuel p others false = { p with current_path := [], path_index := 0 } := by
    unfold replan_path
    rw [htgt]
    rcases find_path_unreachable w fuel p.position tgt
        (blocked_positions_for p others false) hgw (fun h => hpos h.symm) with h | h <;>
      rcases find_path_unreachable w fuel p.position tgt [] hgw
          (fun h => hpos h.symm) with h0 | h0 <;>
        simp [h, h0]
  have hguard : (p.current_path.isEmpty || decide (p.path_index ≥ p.current_path.length)) = true := by
    rw [hpath]
    rfl
  rw [hguard]
  simp only [if_true]
  rw [hrep]
  set p1 : Picker := { p with current_path := [], path_index := 0 } with hp1
  by_cases hdel : t - p1.last_move_time < 1 + p1.load.get_movement_penalty
  · rw [if_pos hdel, hp1, htgt]
  · rw [if_neg hdel]
    have hcol : check_for_collisions p1 others = false := by
      unfold check_for_collisions
      rfl
    rw [hcol]
    simp only [Bool.false_eq_true, if_false]
    have hget : p1.current_path.get? p1.path_index = none := rfl
    rw [hget]
    rw [if_neg (by exact hpos), hp1, htgt]

/-- Updating a single-agent swarm reduces to one agent update. -/
theorem update_pickers_loop_singleton (w : LargeWarehouse) (fuel : Nat) (t : ℚ)
    (p p' : Picker) (h : Picker.update w fuel t p [p] = some (p', false)) :
    update_pickers_loop w fuel t [p] = some [p'] := by
  unfold update_pickers_loop update_pickers_go
  show (match Picker.update w fuel t p [p] with
        | none => none
        | some pr => update_pickers_go w fuel t 1 0 ([p].set 0 pr.1)) = some [p']
  rw [h]
  rfl

/-! ## C1: scenario A (one agent, one small item on a shelf) -/

/-- The single small item of scenario A, stored at shelf cell (3, 3), level 1. -/
def c1_item : OrderItem := ⟨"ITEM_1", "item", .small, (3, 3, 1), 1⟩

/-- The scenario-A order. -/
def c1_order : PickOrder := ⟨"ORD_1", [c1_item], 1, 0⟩

/-- Scenario A's initial state: a fresh single-picker swarm with the order
enqueued. -/
def c1_m0 : PickerSwarmManager := add_order (mk_manager w36 1) c1_order

/-- The scenario-A picker right after assignment. -/
def c1_p1 : Picker :=
  (assign_order w36 (init_picker w36 1) c1_order).1

/-- The states scenario A is stuck in after the first tick: one agent, no
pending orders, zero completions, parked at the entrance and bound for the
unreachable shelf cell with an empty path. -/
def c1_good (m : PickerSwarmManager) : Prop :=
  m.pending_orders = []
  ∧ ∃ p : Picker, m.pickers = [p]
      ∧ p.orders_completed = 0
      ∧ p.position = ((0 : Int), (18 : Int))
      ∧ p.state = .moving_to_item
      ∧ p.target_position = some ((3 : Int), (3 : Int))
      ∧ p.current_path = []

theorem c1_first_tick (fuel : Nat) (dt : ℚ) (m : PickerSwarmManager)
    (hp : m.pickers = [init_picker w36 1]) (ho : m.pending_orders = [c1_order]) :
    ∃ m', update_simulation w36 fuel m dt = some m' ∧ c1_good m' := by
  unfold update_simulation
  rw [hp]
  have hup : Picker.update w36 fuel (m.current_time + dt) (init_picker w36 1)
      [init_picker w36 1] = some (init_picker w36 1, false) := rfl
  rw [update_pickers_loop_singleton w36 fuel (m.current_time + dt) _ _ hup]
  refine ⟨_, rfl, ?_⟩
  unfold assign_orders
  rw [ho]
  have hloop : assign_orders_loop w36 [c1_order] (idle_indices [init_picker w36 1])
      [init_picker w36 1] = ([c1_p1], []) := rfl
  rw [hloop]
  exact ⟨rfl, c1_p1, rfl, rfl, rfl, rfl, rfl, rfl⟩

theorem c1_step (fuel : Nat) (dt : ℚ) (m : PickerSwarmManager) (hg : c1_good m) :
    ∃ m', update_simulation w36 fuel m dt = some m' ∧ c1_good m' := by
  obtain ⟨hpend, p, hps, hoc, hposi, hstate, htgt, hpath⟩ := hg
  unfold update_simulation
  rw [hps]
  have hstuck := update_movement_stuck w36 fuel (m.current_time + dt) p [p]
    ((3 : Int), (3 : Int)) htgt (by decide) (by rw [hposi]; decide) hpath
  have hup : Picker.update w36 fuel (m.current_time + dt) p [p]
      = some ({ p with current_path := [], path_index := 0 }, false) := by
    unfold Picker.update
    rw [hstate]
    show some (update_movement w36 fuel (m.current_time + dt) p [p]) = _
    rw [hstuck, hstate]
  rw [update_pickers_loop_singleton w36 fuel (m.current_time + dt) _ _ hup]
  refine ⟨_, rfl, ?_⟩
  unfold assign_orders
  rw [hpend]
  have hloop : ∀ (idxs : List Nat) (ps : List Picker),
      assign_orders_loop w36 [] idxs ps = (ps, []) := by
    intro idxs ps
    cases idxs <;> rfl
  rw [hloop]
  exact ⟨rfl, { p with current_path := [], path_index := 0 }, rfl, hoc, hposi, hstate,
    htgt, rfl⟩

/-- Either still fresh (tick 0) or stuck bound for the shelf. -/
def c1_reach (m : PickerSwarmManager) : Prop :=
  (m.pickers = [init_picker w36 1] ∧ m.pending_orders = [c1_order]) ∨ c1_good m

theorem c1_run (fuel : Nat) (steps : List ℚ) :
    ∀ m, c1_reach m → ∃ m', run_ticks w36 fuel steps m = some m' ∧ c1_reach m' := by
  induction steps with
  | nil => intro m hm; exact ⟨m, rfl, hm⟩
  | cons dt rest ih =>
      intro m hm
      have hone : ∃ m1, update_simulation w36 fuel m dt = some m1 ∧ c1_good m1 := by
        rcases hm with ⟨hp, ho⟩ | hg
        · exact c1_first_tick fuel dt m hp ho
        · exact c1_step fuel dt m hg
      rcases hone with ⟨m1, hm1, hg1⟩
      rcases ih m1 (Or.inr hg1) with ⟨m', hm', hr'⟩
      refine ⟨m', ?_, hr'⟩
      unfold run_ticks
      rw [hm1]
      exact hm'

/-- C1 (code bug): in scenario A — the default warehouse, a single agent, and
an order holding one small item at the reachable-aisle-adjacent shelf cell
(3, 3) — the agent never completes the order.  The movement target is the
shelf cell itself, which is not walkable, so `find_path` can never return a
route to it (`find_path_unreachable`); after any number of ticks of any step
sizes and with any search fuel, `orders_completed` is still 0 and the agent
is still parked at the entrance, idle (before assignment) or bound for the
item forever.  The spec's scenario A (`ordersCompleted == 1` after enough
ticks) therefore never holds. -/
theorem c1_scenario_a_never_completes (fuel : Nat) (steps : List ℚ) :
    ∃ m', run_ticks w36 fuel steps c1_m0 = some m'
      ∧ m'.pickers.map Picker.orders_completed = [0]
      ∧ m'.pickers.map Picker.position = [((0 : Int), (18 : Int))]
      ∧ (m'.pickers.map Picker.state = [PickerState.idle]
          ∨ m'.pickers.map Picker.state = [PickerState.moving_to_item]) := by
  rcases c1_run fuel steps c1_m0 (Or.inl ⟨rfl, rfl⟩) with ⟨m', hrun, hreach⟩
  refine ⟨m', hrun, ?_⟩
  rcases hreach with ⟨hp, _⟩ | ⟨_, p, hps, hoc, hposi, hstate, _, _⟩
  · rw [hp]
    exact ⟨rfl, rfl, Or.inl rfl⟩
  · rw [hps]
    simp only [List.map_cons, List.map_nil, hoc, hposi, hstate]
    exact ⟨trivial, trivial, Or.inr trivial⟩

/-! ## C3: over-capacity deferral and what happens to the deferred items -/

/-- One update of a lone picker, as `run` would apply it (the peer list is
the whole swarm, here just the picker itself); a crash leaves the picker
unchanged so that the chain can still be stated. -/
def single_update (fuel : Nat) (t : ℚ) (p : Picker) : Picker :=
  ((Picker.update w36 fuel t p [p]).map Prod.fst).getD p

def c3_small_item : OrderItem := ⟨"A", "small item", .small, (3, 3, 1), 1⟩

def c3_large_item : OrderItem := ⟨"B", "large item", .large, (7, 3, 1), 1⟩

def c3_order : PickOrder := ⟨"ORD_3", [c3_small_item, c3_large_item], 1, 0⟩

/-- A picker that is finishing the pick of the small item while standing on
the exit cell (positions do not constrain picking), with the large item next. -/
def c3_p0 : Picker :=
  { picker_id := 1, position := (35, 18), target_position := some (3, 3),
    current_path := [], path_index := 0, state := .picking,
    load := LoadCapacity.init, current_order := some c3_order,
    current_item_index := 0, last_move_time := 0, pick_start_time := 0,
    wait_start_time := 0, total_distance := 0, total_pick_time := 0,
    total_wait_time := 0, orders_completed := 0 }

/-- C3 counterexample: executing the code from `c3_p0` — at t=1 the pick of
the small item completes and the over-capacity large item is deferred by
heading to the exit (first half of the claim holds); at t=3 the agent is
already on the exit cell and starts exiting; at t=6 the exit dwell ends and
the order is counted completed (`orders_completed = 1`, `current_order`
cleared) while the cursor never went past index 1 of the 2 items and the
large item was never picked — refuting "the remaining items of that order
are still picked before the order is counted as completed". -/
theorem c3_counterexample :
    (single_update 0 1 c3_p0).state = .moving_to_exit
    ∧ (single_update 0 1 c3_p0).target_position = some (35, 18)
    ∧ (single_update 0 1 c3_p0).load.items_carried = [c3_small_item]
    ∧ (single_update 0 3 (single_update 0 1 c3_p0)).state = .exiting
    ∧ (single_update 0 3 (single_update 0 1 c3_p0)).current_item_index = 1
    ∧ c3_order.items.length = 2
    ∧ (single_update 0 6 (single_update 0 3 (single_update 0 1 c3_p0))).orders_completed = 1
    ∧ (single_update 0 6 (single_update 0 3 (single_update 0 1 c3_p0))).current_order = none
    ∧ c3_large_item ∉ (single_update 0 6 (single_update 0 3 (single_update 0 1 c3_p0))).load.items_carried
    ∧ c3_large_item ∉ (single_update 0 3 (single_update 0 1 c3_p0)).load.items_carried := by
  norm_num [single_update, Picker.update, update_picking, update_movement, update_exiting,
    plan_next_item, plan_path_to_exit, start_exiting, replan_path, blocked_positions_for,
    check_for_collisions, find_path, c3_p0, c3_order, c3_small_item, c3_large_item,
    LoadCapacity.can_carry, LoadCapacity.add_item, LoadCapacity.init, sizePoints,
    LoadCapacity.get_movement_penalty, LargeWarehouse.exit_pos, w36]

/-- C3 amended: an agent whose next order item does not fit the current load
does defer it by heading to the exit (keeping the order and the cursor), but
once the exit dwell completes, `_update_exiting` counts the order completed
and clears it unconditionally — remaining unpicked items are dropped with
the order, not picked afterwards. -/
theorem c3_defer_then_drop (w : LargeWarehouse) (p : Picker) (ord : PickOrder)
    (it : OrderItem) (t : ℚ)
    (hord : p.current_order = some ord)
    (hit : ord.items.get? p.current_item_index = some it)
    (hcc : p.load.can_carry it = false)
    (hdwell : t - p.pick_start_time ≥ 2) :
    (plan_next_item w p).state = .moving_to_exit
    ∧ (plan_next_item w p).target_position = some w.exit_pos
    ∧ (plan_next_item w p).current_order = some ord
    ∧ (plan_next_item w p).current_item_index = p.current_item_index
    ∧ (update_exiting w t p).1.orders_completed = p.orders_completed + 1
    ∧ (update_exiting w t p).1.current_order = none := by
  have hplan : plan_next_item w p = plan_path_to_exit w p := by
    simp only [plan_next_item, hord, hit, hcc, Bool.false_eq_true, if_false]
  have hexit : (update_exiting w t p).1.orders_completed = p.orders_completed + 1
      ∧ (update_exiting w t p).1.current_order = none := by
    unfold update_exiting
    rw [if_pos hdwell]
    exact ⟨rfl, rfl⟩
  rw [hplan]
  exact ⟨rfl, rfl, hord, rfl, hexit.1, hexit.2⟩

/-- Witness for the amended C3 at the concrete deferral state reached in the
counterexample run. -/
theorem c3_defer_then_drop_witness :
    (plan_next_item w36 (single_update 0 1 c3_p0)).state = .moving_to_exit
    ∧ (update_exiting w36 2 (single_update 0 1 c3_p0)).1.orders_completed
        = (single_update 0 1 c3_p0).orders_completed + 1 := by
  have hp : (single_update 0 1 c3_p0).current_order = some c3_order := by
    simp [single_update, Picker.update, update_picking, plan_next_item, plan_path_to_exit,
      c3_p0, c3_order, c3_small_item, c3_large_item, LoadCapacity.can_carry,
      LoadCapacity.add_item, LoadCapacity.init, sizePoints, LargeWarehouse.exit_pos, w36]
  have hit : c3_order.items.get? (single_update 0 1 c3_p0).current_item_index
      = some c3_large_item := by
    simp [single_update, Picker.update, update_picking, plan_next_item, plan_path_to_exit,
      c3_p0, c3_order, c3_small_item, c3_large_item, LoadCapacity.can_carry,
      LoadCapacity.add_item, LoadCapacity.init, sizePoints, LargeWarehouse.exit_pos, w36]
  have hcc : (single_update 0 1 c3_p0).load.can_carry c3_large_item = false := by
    simp [single_update, Picker.update, update_picking, plan_next_item, plan_path_to_exit,
      c3_p0, c3_order, c3_small_item, c3_large_item, LoadCapacity.can_carry,
      LoadCapacity.add_item, LoadCapacity.init, sizePoints, LargeWarehouse.exit_pos, w36]
  have hdw : (2 : ℚ) - (single_update 0 1 c3_p0).pick_start_time ≥ 2 := by
    simp [single_update, Picker.update, update_picking, plan_next_item, plan_path_to_exit,
      c3_p0, c3_order, c3_small_item, c3_large_item, LoadCapacity.can_carry,
      LoadCapacity.add_item, LoadCapacity.init, sizePoints, LargeWarehouse.exit_pos, w36]
  have h := c3_defer_then_drop w36 (single_update 0 1 c3_p0) c3_order c3_large_item 2
    hp hit hcc hdw
  exact ⟨h.1, h.2.2.2.2.1⟩

/-! ## C4: resuming from Waiting while bound for the exit -/

def c4_item : OrderItem := ⟨"A", "small item", .small, (3, 3, 1), 1⟩

def c4_order : PickOrder := ⟨"ORD_4", [c4_item], 1, 0⟩

/-- An agent that deferred to the exit (order cursor at the end), got blocked
one step short of the exit cell and is waiting; the obstruction has cleared
(no peers left in the list). -/
def c4_p0 : Picker :=
  { picker_id := 1, position := (34, 18), target_position := some (35, 18),
    current_path := [(35, 18)], path_index := 0, state := .waiting,
    load := ⟨[c4_item], 1, 4⟩, current_order := some c4_order,
    current_item_index := 1, last_move_time := 0, pick_start_time := 0,
    wait_start_time := 0, total_distance := 0, total_pick_time := 0,
    total_wait_time := 0, orders_completed := 0 }

/-- C4 (code bug): once the obstruction clears, the wait is accumulated
(1 time unit) but the agent resumes in `MOVING_TO_ITEM` even though its
target is the exit; on arriving at the exit cell it therefore transitions to
`PICKING` (not `EXITING`), and the next picking update dereferences
`items[current_item_index]` past the end of the order — an
IndexError, modelled as `none`.  The claim (and spec §4.4) say it should
transition to `Exiting`. -/
theorem c4_waiting_resume_wrong_state :
    (single_update 0 1 c4_p0).state = .moving_to_item
    ∧ (single_update 0 1 c4_p0).total_wait_time = 1
    ∧ (single_update 0 1 c4_p0).target_position = some (35, 18)
    ∧ (single_update 0 3 (single_update 0 1 c4_p0)).state = .picking
    ∧ (single_update 0 3 (single_update 0 1 c4_p0)).position = (35, 18)
    ∧ w36.exit_pos = (35, 18)
    ∧ Picker.update w36 0 6 (single_update 0 3 (single_update 0 1 c4_p0))
        [single_update 0 3 (single_update 0 1 c4_p0)] = none := by
  norm_num [single_update, Picker.update, update_waiting, update_movement, update_picking,
    start_picking, check_for_collisions, replan_path, blocked_positions_for, find_path,
    c4_p0, c4_order, c4_item, LoadCapacity.get_movement_penalty, LargeWarehouse.exit_pos,
    w36]

/-! ## C5: zero-duration ticks -/

def c5_order : PickOrder := ⟨"ORD_5", [⟨"A", "a", .small, (3, 3, 1), 1⟩], 1, 0⟩

/-- An idle swarm with a pending order. -/
def c5_m1 : PickerSwarmManager :=
  { pickers := [init_picker w36 1], pending_orders := [c5_order],
    completed_orders := [], current_time := 0 }

/-- A mid-route agent whose movement quantum has already elapsed
(`last_move_time = 0`, clock at 5). -/
def c5_p2 : Picker :=
  { init_picker w36 1 with
      state := .moving_to_item
      target_position := some (3, 18)
      current_path := [(1, 18), (2, 18)]
      path_index := 0 }

def c5_m2 : PickerSwarmManager :=
  { pickers := [c5_p2], pending_orders := [], completed_orders := [], current_time := 5 }

/-- The agent of `c5_m2` after the zero tick: moved one cell. -/
def c5_p2_moved : Picker :=
  { c5_p2 with position := (1, 18), path_index := 1, last_move_time := 5,
               total_distance := 1 }

/-- C5 counterexample: a tick with `stepSize = 0` is not a no-op — it still
assigns pending orders (the idle agent's state changes to `moving_to_item`),
and it still moves an agent whose movement quantum has already elapsed
(position advances and distance increments). -/
theorem c5_zero_tick_counterexample :
    c5_m1.pickers.map Picker.state = [.idle]
    ∧ (update_simulation w36 0 c5_m1 0).map (fun m => m.pickers.map Picker.state)
        = some [.moving_to_item]
    ∧ (update_simulation w36 0 c5_m1 0).map (fun m => m.pending_orders.length) = some 0
    ∧ c5_m2.pickers.map Picker.position = [((0 : Int), 18)]
    ∧ c5_m2.pickers.map Picker.total_distance = [0]
    ∧ (update_simulation w36 0 c5_m2 0).map (fun m => m.pickers.map Picker.position)
        = some [((1 : Int), 18)]
    ∧ (update_simulation w36 0 c5_m2 0).map (fun m => m.pickers.map Picker.total_distance)
        = some [1] := by
  have hup : Picker.update w36 0 ((5 : ℚ) + 0) c5_p2 [c5_p2]
      = some (c5_p2_moved, false) := by
    norm_num [Picker.update, update_movement, check_for_collisions, start_picking,
      c5_p2, c5_p2_moved, init_picker, LoadCapacity.get_movement_penalty,
      LoadCapacity.init, LargeWarehouse.entrances, w36]
  have hm2 : update_simulation w36 0 c5_m2 0
      = some (assign_orders w36
          { c5_m2 with current_time := (5 : ℚ) + 0, pickers := [c5_p2_moved] }) := by
    unfold update_simulation
    show (match update_pickers_loop w36 0 ((5 : ℚ) + 0) [c5_p2] with
          | none => none
          | some ps' =>
              some (assign_orders w36
                { c5_m2 with current_time := (5 : ℚ) + 0, pickers := ps' })) = _
    rw [update_pickers_loop_singleton w36 0 ((5 : ℚ) + 0) c5_p2 c5_p2_moved hup]
  refine ⟨rfl, rfl, rfl, rfl, rfl, ?_, ?_⟩ <;> rw [hm2] <;> rfl

/-- The observable fields of the C5 claim: position, state, and the four
statistics (plus the id, which names the agent). -/
def same_obs (p q : Picker) : Prop :=
  q.picker_id = p.picker_id ∧ q.position = p.position ∧ q.state = p.state
  ∧ q.total_distance = p.total_distance ∧ q.total_wait_time = p.total_wait_time
  ∧ q.total_pick_time = p.total_pick_time ∧ q.orders_completed = p.orders_completed

theorem same_obs_refl (p : Picker) : same_obs p p :=
  ⟨rfl, rfl, rfl, rfl, rfl, rfl, rfl⟩

/-- Replanning touches only the cached path and its cursor. -/
theorem replan_path_fields (w : LargeWarehouse) (fuel : Nat) (p : Picker)
    (others : List Picker) (b : Bool) :
    (replan_path w fuel p others b).picker_id = p.picker_id
    ∧ (replan_path w fuel p others b).position = p.position
    ∧ (replan_path w fuel p others b).state = p.state
    ∧ (replan_path w fuel p others b).target_position = p.target_position
    ∧ (replan_path w fuel p others b).load = p.load
    ∧ (replan_path w fuel p others b).last_move_time = p.last_move_time
    ∧ (replan_path w fuel p others b).total_distance = p.total_distance
    ∧ (replan_path w fuel p others b).total_wait_time = p.total_wait_time
    ∧ (replan_path w fuel p others b).total_pick_time = p.total_pick_time
    ∧ (replan_path w fuel p others b).orders_completed = p.orders_completed := by
  unfold replan_path
  split
  · exact ⟨rfl, rfl, rfl, rfl, rfl, rfl, rfl, rfl, rfl, rfl⟩
  · dsimp only
    split
    · exact ⟨rfl, rfl, rfl, rfl, rfl, rfl, rfl, rfl, rfl, rfl⟩
    · exact ⟨rfl, rfl, rfl, rfl, rfl, rfl, rfl, rfl, rfl, rfl⟩

/-- Conditions under which a zero-duration tick cannot change an agent's
observable fields: assignment aside, each state's time-based guard must not
yet have been met, and a waiting agent must still be directly blocked by a
peer with its wait under the 5-unit timeout. -/
def zero_tick_inert (t : ℚ) (ps : List Picker) (p : Picker) : Bool :=
  match p.state with
  | .idle => true
  | .moving_to_item | .moving_to_exit =>
      p.target_position.isNone
        || decide (t - p.last_move_time < 1 + p.load.get_movement_penalty)
  | .picking =>
      match p.current_order with
      | none => true
      | some ord =>
          match ord.items.get? p.current_item_index with
          | none => false
          | some it => decide (t - p.pick_start_time < it.pick_time)
  | .waiting =>
      (match p.current_path.get? p.path_index with
       | none => false
       | some nxt =>
           ps.any (fun q => decide (q.picker_id ≠ p.picker_id) && decide (q.position = nxt)))
        && decide (t - p.wait_start_time ≤ 5)
  | .exiting => decide (t - p.pick_start_time < 2)

theorem update_movement_inert (w : LargeWarehouse) (fuel : Nat) (t : ℚ)
    (p : Picker) (others : List Picker)
    (h : p.target_position = none
        ∨ t - p.last_move_time < 1 + p.load.get_movement_penalty) :
    ∃ p', update_movement w fuel t p others = (p', false) ∧ same_obs p p' := by
  unfold update_movement
  cases htp : p.target_position with
  | none => exact ⟨p, rfl, same_obs_refl p⟩
  | some tgt =>
      rcases h with h | h
      · rw [htp] at h; cases h
      · dsimp only
        obtain ⟨hid, hpos, hst, _htg, hld, hlm, htd, htw, htp2, hoc⟩ :=
          replan_path_fields w fuel p others false
        by_cases hc : (p.current_path.isEmpty || decide (p.path_index ≥ p.current_path.length)) = true
        · rw [if_pos hc]
          rw [if_pos (by rw [hlm, hld]; exact h)]
          exact ⟨replan_path w fuel p others false, rfl,
            ⟨hid, hpos, hst, htd, htw, htp2, hoc⟩⟩
        · rw [if_neg hc]
          rw [if_pos h]
          exact ⟨p, rfl, same_obs_refl p⟩

theorem update_picking_inert (w : LargeWarehouse) (t : ℚ) (p : Picker)
    (h : p.current_order = none
        ∨ ∃ ord it, p.current_order = some ord
            ∧ ord.items.get? p.current_item_index = some it
            ∧ t - p.pick_start_time < it.pick_time) :
    update_picking w t p = some (p, false) := by
  unfold update_picking
  rcases h with h | ⟨ord, it, hord, hit, hlt⟩
  · rw [h]
  · simp only [hord, hit]
    rw [if_neg (not_le.2 hlt)]

theorem update_waiting_inert (w : LargeWarehouse) (fuel : Nat) (t : ℚ)
    (p : Picker) (others : List Picker)
    (hcol : check_for_collisions p others = true)
    (hto : t - p.wait_start_time ≤ 5) :
    update_waiting w fuel t p others = (p, false) := by
  unfold update_waiting
  rw [if_neg (by rw [hcol]; simp)]
  rw [if_neg (not_lt.2 hto)]

theorem update_exiting_inert (w : LargeWarehouse) (t : ℚ) (p : Picker)
    (h : t - p.pick_start_time < 2) :
    update_exiting w t p = (p, false) := by
  unfold update_exiting
  rw [if_neg (not_le.2 h)]

/-- A direct collision witness makes the collision check true regardless of
the other agents' cached paths. -/
theorem check_for_collisions_of_direct (p : Picker) (others : List Picker)
    (nxt : Pos) (hnext : p.current_path.get? p.path_index = some nxt)
    (q : Picker) (hq : q ∈ others) (hid : q.picker_id ≠ p.picker_id)
    (hpos : q.position = nxt) :
    check_for_collisions p others = true := by
  unfold check_for_collisions
  rw [hnext]
  refine List.any_eq_true.2 ⟨q, hq, ?_⟩
  rw [if_neg hid, if_pos hpos]

theorem forall₂_mem_left {R : Picker → Picker → Prop} :
    ∀ {l1 l2 : List Picker}, List.Forall₂ R l1 l2 → ∀ {q : Picker}, q ∈ l1 →
      ∃ q' ∈ l2, R q q' := by
  intro l1
  induction l1 with
  | nil => intro l2 h q hq; cases hq
  | cons a tl ih =>
      intro l2 h q hq
      cases h with
      | cons hr hrest =>
          rcases List.mem_cons.1 hq with h0 | h0
          · subst h0; exact ⟨_, List.mem_cons_self _ _, hr⟩
          · rcases ih hrest h0 with ⟨q', hq', hr'⟩
            exact ⟨q', List.mem_cons_of_mem _ hq', hr'⟩

theorem forall₂_mem_right {R : Picker → Picker → Prop} :
    ∀ {l1 l2 : List Picker}, List.Forall₂ R l1 l2 → ∀ {q' : Picker}, q' ∈ l2 →
      ∃ q ∈ l1, R q q' := by
  intro l1
  induction l1 with
  | nil => intro l2 h q' hq'; cases h; cases hq'
  | cons a tl ih =>
      intro l2 h q' hq'
      cases h with
      | cons hr hrest =>
          rcases List.mem_cons.1 hq' with h0 | h0
          · subst h0; exact ⟨a, List.mem_cons_self _ _, hr⟩
          · rcases ih hrest h0 with ⟨q, hq, hr'⟩
            exact ⟨q, List.mem_cons_of_mem _ hq, hr'⟩

/-- Under the inert conditions (stated against the original peer snapshot),
an agent's update succeeds, returns `false`, and preserves the observable
fields — even against a partially-updated peer list whose ids and positions
agree with the snapshot. -/
theorem inert_update (w : LargeWarehouse) (fuel : Nat) (t : ℚ) (p : Picker)
    (ps others : List Picker)
    (hin : zero_tick_inert t ps p = true)
    (hcorr : List.Forall₂ (fun q q' => q'.picker_id = q.picker_id ∧ q'.position = q.position)
      ps others) :
    ∃ p', Picker.update w fuel t p others = some (p', false) ∧ same_obs p p' := by
  unfold zero_tick_inert at hin
  unfold Picker.update
  cases hst : p.state with
  | idle => exact ⟨p, rfl, same_obs_refl p⟩
  | moving_to_item =>
      rw [hst] at hin
      simp only [Bool.or_eq_true, Option.isNone_iff_eq_none, decide_eq_true_eq] at hin
      rcases update_movement_inert w fuel t p others hin with ⟨p', hp', hobs⟩
      exact ⟨p', by rw [hp'], hobs⟩
  | moving_to_exit =>
      rw [hst] at hin
      simp only [Bool.or_eq_true, Option.isNone_iff_eq_none, decide_eq_true_eq] at hin
      rcases update_movement_inert w fuel t p others hin with ⟨p', hp', hobs⟩
      exact ⟨p', by rw [hp'], hobs⟩
  | picking =>
      simp only [hst] at hin
      refine ⟨p, ?_, same_obs_refl p⟩
      refine update_picking_inert w t p ?_
      cases hord : p.current_order with
      | none => exact Or.inl rfl
      | some ord =>
          simp only [hord] at hin
          cases hit : ord.items.get? p.current_item_index with
          | none =>
              simp only [hit] at hin
              exact absurd hin (by decide)
          | some it =>
              simp only [hit, decide_eq_true_eq] at hin
              exact Or.inr ⟨ord, it, rfl, hit, hin⟩
  | waiting =>
      rw [hst] at hin
      simp only [Bool.and_eq_true, decide_eq_true_eq] at hin
      obtain ⟨hblock, hto⟩ := hin
      cases hnext : p.current_path.get? p.path_index with
      | none => rw [hnext] at hblock; cases hblock
      | some nxt =>
          rw [hnext] at hblock
          rcases List.any_eq_true.1 hblock with ⟨q, hq, hqprop⟩
          simp only [Bool.and_eq_true, decide_eq_true_eq] at hqprop
          rcases forall₂_mem_left hcorr hq with ⟨q', hq', hid', hpos'⟩
          have hcol : check_for_collisions p others = true :=
            check_for_collisions_of_direct p others nxt hnext q' hq'
              (by rw [hid']; exact hqprop.1) (by rw [hpos']; exact hqprop.2)
          refine ⟨p, ?_, same_obs_refl p⟩
          rw [update_waiting_inert w fuel t p others hcol hto]
  | exiting =>
      rw [hst] at hin
      simp only [decide_eq_true_eq] at hin
      refine ⟨p, ?_, same_obs_refl p⟩
      rw [update_exiting_inert w t p hin]

/-- The tick's agent loop preserves every agent's observable fields when all
agents are inert for the tick. -/
theorem update_go_inert (w : LargeWarehouse) (fuel : Nat) (t : ℚ)
    (orig : List Picker)
    (hin : ∀ p ∈ orig, zero_tick_inert t orig p = true) :
    ∀ (k i : Nat) (cur : List Picker), i + k = orig.length →
      cur.length = orig.length →
      (∀ j, i ≤ j → cur.get? j = orig.get? j) →
      List.Forall₂ same_obs orig cur →
      ∃ fin, update_pickers_go w fuel t i k cur = some fin
        ∧ List.Forall₂ same_obs orig fin := by
  intro k
  induction k with
  | zero =>
      intro i cur _ _ _ hf
      exact ⟨cur, rfl, hf⟩
  | succ k ih =>
      intro i cur hik hlen hunproc hf
      have hilt : i < orig.length := by omega
      have hgo : ∃ p, orig.get? i = some p := by
        cases horig : orig.get? i with
        | none => exact absurd horig (by rw [List.get?_eq_get hilt]; simp)
        | some p => exact ⟨p, rfl⟩
      obtain ⟨p, hpo⟩ := hgo
      have hpc : cur.get? i = some p := by rw [hunproc i (le_refl i)]; exact hpo
      have hpm : p ∈ orig := List.get?_mem hpo
      have hcorr : List.Forall₂
          (fun q q' => q'.picker_id = q.picker_id ∧ q'.position = q.position) orig cur :=
        List.Forall₂.imp (fun a b hab => ⟨hab.1, hab.2.1⟩) hf
      obtain ⟨p', hu, hobs⟩ := inert_update w fuel t p orig cur (hin p hpm) hcorr
      refine ?_
      have hrec := ih (i + 1) (cur.set i p') (by omega)
        (by rw [List.length_set]; exact hlen)
        (fun j hj => by
          rw [List.get?_eq_getElem?, List.get?_eq_getElem?,
            List.getElem?_set_ne (by omega : i ≠ j), ← List.get?_eq_getElem?,
            ← List.get?_eq_getElem?]
          exact hunproc j (by omega))
        (by
          rw [List.forall₂_iff_get] at hf ⊢
          refine ⟨by rw [List.length_set]; exact hf.1, ?_⟩
          intro j h1 h2
          by_cases hji : j = i
          · subst hji
            have hset : (cur.set j p').get ⟨j, h2⟩ = p' := by
              rw [← Option.some.injEq, ← List.get?_eq_get]
              rw [List.get?_eq_getElem?, List.getElem?_set_self (by simp at h2; omega)]
            have hog : orig.get ⟨j, h1⟩ = p := by
              rw [← Option.some.injEq, ← List.get?_eq_get]
              exact hpo
            rw [hset, hog]
            exact hobs
          · have hset : (cur.set i p').get ⟨j, h2⟩
                = cur.get ⟨j, by simp at h2; exact h2⟩ := by
              rw [← Option.some.injEq, ← List.get?_eq_get, ← List.get?_eq_get,
                List.get?_eq_getElem?, List.get?_eq_getElem?,
                List.getElem?_set_ne (fun h => hji h.symm)]
            rw [hset]
            exact hf.2 j h1 _)
      obtain ⟨fin, hfin, hff⟩ := hrec
      refine ⟨fin, ?_, hff⟩
      unfold update_pickers_go
      rw [hpc]
      show (match Picker.update w fuel t p cur with
            | none => none
            | some pr => update_pickers_go w fuel t (i + 1) k (cur.set i pr.1)) = some fin
      rw [hu]
      exact hfin

theorem idle_indices_nil (ps : List Picker) (h : ∀ p ∈ ps, p.state ≠ .idle) :
    idle_indices ps = [] := by
  unfold idle_indices
  rw [List.filter_eq_nil_iff]
  intro i _
  cases hq : ps.get? i with
  | none => simp [hq]
  | some q =>
      simp only [hq, decide_eq_true_eq]
      exact h q (List.get?_mem hq)

/-- Assignment is a no-op when there are no pending orders or no idle
agents. -/
theorem assign_orders_noop (w : LargeWarehouse) (m : PickerSwarmManager)
    (h : m.pending_orders = [] ∨ idle_indices m.pickers = []) :
    assign_orders w m = m := by
  unfold assign_orders
  rcases h with h | h
  · have hl : ∀ (idxs : List Nat) (ps : List Picker),
        assign_orders_loop w [] idxs ps = (ps, []) := by
      intro idxs ps
      cases idxs <;> rfl
    rw [h, hl]
    cases m with
    | mk ps po co ct =>
        simp only at h
        subst h
        rfl
  · have hl : ∀ (os : List PickOrder) (ps : List Picker),
        assign_orders_loop w os [] ps = (ps, os) := by
      intro os ps
      cases os <;> rfl
    rw [h, hl]

/-- C5 amended: a zero-duration tick leaves the clock unchanged, and provided
(i) no assignment can fire (no pending orders, or no idle agent) and (ii)
every agent is inert for the tick — its state's time guard has not yet
elapsed, and a waiting agent is still directly blocked with its wait within
the 5-unit timeout — then no agent's position, state, or statistics change
(the cached path may still be replanned).  Without those guards a zero tick
can assign orders and move agents, as `c5_zero_tick_counterexample` shows. -/
theorem c5_zero_tick_amended (w : LargeWarehouse) (fuel : Nat)
    (m : PickerSwarmManager)
    (hassign : m.pending_orders = [] ∨ ∀ p ∈ m.pickers, p.state ≠ .idle)
    (hinert : ∀ p ∈ m.pickers, zero_tick_inert m.current_time m.pickers p = true) :
    ∃ m', update_simulation w fuel m 0 = some m'
      ∧ m'.current_time = m.current_time
      ∧ m'.pending_orders = m.pending_orders
      ∧ List.Forall₂ same_obs m.pickers m'.pickers := by
  have h0 : m.current_time + 0 = m.current_time := add_zero _
  have hin' : ∀ p ∈ m.pickers, zero_tick_inert (m.current_time + 0) m.pickers p = true := by
    rw [h0]; exact hinert
  obtain ⟨fin, hfin, hff⟩ := update_go_inert w fuel (m.current_time + 0) m.pickers hin'
    m.pickers.length 0 m.pickers (by omega) rfl (fun j _ => rfl)
    (List.forall₂_same.2 fun p _ => same_obs_refl p)
  have hstep : update_simulation w fuel m 0
      = some (assign_orders w { m with current_time := m.current_time + 0, pickers := fin }) := by
    unfold update_simulation update_pickers_loop
    rw [hfin]
  have hnoop : assign_orders w { m with current_time := m.current_time + 0, pickers := fin }
      = { m with current_time := m.current_time + 0, pickers := fin } := by
    refine assign_orders_noop w _ ?_
    rcases hassign with h | h
    · exact Or.inl h
    · refine Or.inr (idle_indices_nil fin ?_)
      intro p' hp'
      rcases forall₂_mem_right hff hp' with ⟨q, hq, hobs⟩
      rw [hobs.2.2.1]
      exact h q hq
  rw [hnoop] at hstep
  exact ⟨_, hstep, h0, rfl, hff⟩

/-- A swarm on which the amended C5 applies: one idle agent, no pending
orders. -/
def c5_w_m : PickerSwarmManager :=
  { pickers := [init_picker w36 1], pending_orders := [],
    completed_orders := [], current_time := 0 }

/-- Witness for the amended C5. -/
theorem c5_zero_tick_amended_witness :
    ∃ m', update_simulation w36 0 c5_w_m 0 = some m'
      ∧ m'.current_time = c5_w_m.current_time
      ∧ m'.pending_orders = c5_w_m.pending_orders
      ∧ List.Forall₂ same_obs c5_w_m.pickers m'.pickers :=
  c5_zero_tick_amended w36 0 c5_w_m (Or.inl rfl)
    (by
      intro p hp
      simp only [c5_w_m, List.mem_singleton] at hp
      subst hp
      rfl)

/-! ## C9: FIFO order assignment -/

/-- `_plan_next_item` only retargets the agent; it never touches the order
reference. -/
theorem plan_next_item_current_order (w : LargeWarehouse) (p : Picker) :
    (plan_next_item w p).current_order = p.current_order := by
  unfold plan_next_item plan_path_to_exit
  split
  · rfl
  · split
    · rfl
    · split <;> rfl

/-- A successful `assign_order` stores the order on the picker. -/
theorem assign_order_sets_order (w : LargeWarehouse) (p : Picker) (o : PickOrder)
    (h1 : p.state = .idle) (h2 : p.current_order = none) :
    (assign_order w p o).1.current_order = some o ∧ (assign_order w p o).2 = true := by
  unfold assign_order
  rw [if_pos ⟨h1, h2⟩]
  exact ⟨by rw [plan_next_item_current_order], rfl⟩

/-- Full characterization of the `while pending and available:` loop: orders
are consumed from the front, exactly `min #idle #pending` pairings happen,
the `j`-th pending order goes to the `j`-th idle picker, and all other
pickers are untouched. -/
theorem assign_loop_spec (w : LargeWarehouse) :
    ∀ (orders : List PickOrder) (idxs : List Nat) (ps : List Picker),
      idxs.Nodup → (∀ i ∈ idxs, i < ps.length) →
      (assign_orders_loop w orders idxs ps).2
          = orders.drop (min idxs.length orders.length)
      ∧ (assign_orders_loop w orders idxs ps).1.length = ps.length
      ∧ (∀ j, j < min idxs.length orders.length →
          ∃ i, idxs.get? j = some i
            ∧ (assign_orders_loop w orders idxs ps).1.get? i
                = (orders.get? j).map (fun o => (assign_order w ((ps.get? i).getD default) o).1))
      ∧ (∀ i, i ∉ idxs.take (min idxs.length orders.length) →
          (assign_orders_loop w orders idxs ps).1.get? i = ps.get? i) := by
  intro orders
  induction orders with
  | nil =>
      intro idxs ps _ _
      have hval : assign_orders_loop w [] idxs ps = (ps, []) := by
        cases idxs <;> rfl
      rw [hval]
      refine ⟨by simp, rfl, ?_, fun i _ => rfl⟩
      intro j hj
      simp at hj
  | cons o os ih =>
      intro idxs ps hnd hb
      cases idxs with
      | nil =>
          have hval : assign_orders_loop w (o :: os) [] ps = (ps, o :: os) := rfl
          rw [hval]
          refine ⟨by simp, rfl, ?_, fun i _ => rfl⟩
          intro j hj
          simp at hj
      | cons i is_ =>
          have hnotin : i ∉ is_ := (List.nodup_cons.1 hnd).1
          have hndr : is_.Nodup := (List.nodup_cons.1 hnd).2
          have hilt : i < ps.length := hb i (List.mem_cons_self _ _)
          have hbr : ∀ i' ∈ is_, i' < (ps.set i (assign_order w ((ps.get? i).getD default) o).1).length := by
            intro i' hi'
            rw [List.length_set]
            exact hb i' (List.mem_cons_of_mem _ hi')
          have hunf : assign_orders_loop w (o :: os) (i :: is_) ps
              = assign_orders_loop w os is_
                  (ps.set i (assign_order w ((ps.get? i).getD default) o).1) := rfl
          obtain ⟨ih2, ihlen, ihpair, ihsame⟩ :=
            ih is_ (ps.set i (assign_order w ((ps.get? i).getD default) o).1) hndr hbr
          have hmin : min (i :: is_).length (o :: os).length
              = min is_.length os.length + 1 := by
            simp only [List.length_cons]
            omega
          have hsetne : ∀ i', i' ≠ i →
              (ps.set i (assign_order w ((ps.get? i).getD default) o).1).get? i' = ps.get? i' := by
            intro i' hne
            rw [List.get?_eq_getElem?, List.get?_eq_getElem?,
              List.getElem?_set_ne (fun h => hne h.symm)]
            exact (List.get?_eq_getElem? ps i').symm
          have hseteq :
              (ps.set i (assign_order w ((ps.get? i).getD default) o).1).get? i
                = some (assign_order w ((ps.get? i).getD default) o).1 := by
            rw [List.get?_eq_getElem?, List.getElem?_set_self hilt]
          refine ⟨?_, ?_, ?_, ?_⟩
          · rw [hunf, ih2, hmin]
            rfl
          · rw [hunf, ihlen, List.length_set]
          · intro j hj
            rw [hmin] at hj
            cases j with
            | zero =>
                refine ⟨i, rfl, ?_⟩
                rw [hunf]
                have : i ∉ is_.take (min is_.length os.length) :=
                  fun h => hnotin (List.mem_of_mem_take h)
                rw [ihsame i this, hseteq]
                rfl
            | succ j =>
                have hj' : j < min is_.length os.length := by omega
                obtain ⟨i', hi'get, hi'val⟩ := ihpair j hj'
                have hi'mem : i' ∈ is_ := List.get?_mem hi'get
                have hi'ne : i' ≠ i := fun h => hnotin (h ▸ hi'mem)
                refine ⟨i', hi'get, ?_⟩
                rw [hunf, hi'val, hsetne i' hi'ne]
                rfl
          · intro i' hi'
            rw [hmin] at hi'
            have h1 : i' ≠ i := by
              intro h
              exact hi' (h ▸ List.mem_cons_self _ _)
            have h2 : i' ∉ is_.take (min is_.length os.length) := by
              intro h
              exact hi' (List.mem_cons_of_mem _ h)
            rw [hunf, ihsame i' h2, hsetne i' h1]

/-- The idle-index list is duplicate-free and in bounds, and each listed
index holds an idle picker. -/
theorem idle_indices_spec (ps : List Picker) :
    (idle_indices ps).Nodup
    ∧ (∀ i ∈ idle_indices ps, i < ps.length)
    ∧ (∀ i ∈ idle_indices ps, ∃ p, ps.get? i = some p ∧ p.state = .idle) := by
  refine ⟨List.Nodup.filter _ (List.nodup_range _), ?_, ?_⟩
  · intro i hi
    have := (List.mem_filter.1 hi).1
    exact List.mem_range.1 this
  · intro i hi
    have := (List.mem_filter.1 hi).2
    cases hq : ps.get? i with
    | none => rw [hq] at this; cases this
    | some p =>
        rw [hq] at this
        simp only [decide_eq_true_eq] at this
        exact ⟨p, rfl, this⟩

/-- C9. `assign_orders` pairs every idle agent with the earliest-enqueued
pending order while both remain: it is a no-op when either side is empty,
the pending queue shrinks by exactly the number of pairings made (the
first `min #idle #pending` orders, in FIFO arrival order, ignoring the
priority field), the `j`-th pending order is assigned to the `j`-th idle
agent (who then carries that very order), and every other agent is left
untouched. -/
theorem c9_assign_orders_fifo (w : LargeWarehouse) (m : PickerSwarmManager)
    (hinv : ∀ p ∈ m.pickers, p.state = .idle → p.current_order = none) :
    ((m.pending_orders = [] ∨ idle_indices m.pickers = []) → assign_orders w m = m)
    ∧ (assign_orders w m).pending_orders
        = m.pending_orders.drop (min (idle_indices m.pickers).length m.pending_orders.length)
    ∧ (assign_orders w m).pickers.length = m.pickers.length
    ∧ (∀ j, j < min (idle_indices m.pickers).length m.pending_orders.length →
        ∃ i o p, (idle_indices m.pickers).get? j = some i
          ∧ m.pending_orders.get? j = some o
          ∧ m.pickers.get? i = some p
          ∧ p.state = .idle
          ∧ (assign_orders w m).pickers.get? i = some (assign_order w p o).1
          ∧ (assign_order w p o).1.current_order = some o)
    ∧ (∀ i, i ∉ (idle_indices m.pickers).take
          (min (idle_indices m.pickers).length m.pending_orders.length) →
        (assign_orders w m).pickers.get? i = m.pickers.get? i) := by
  obtain ⟨hnd, hbd, hidle⟩ := idle_indices_spec m.pickers
  obtain ⟨h2, hlen, hpair, hsame⟩ :=
    assign_loop_spec w m.pending_orders (idle_indices m.pickers) m.pickers hnd hbd
  refine ⟨fun h => assign_orders_noop w m h, ?_, ?_, ?_, ?_⟩
  · show (assign_orders_loop w m.pending_orders (idle_indices m.pickers) m.pickers).2 = _
    exact h2
  · show (assign_orders_loop w m.pending_orders (idle_indices m.pickers) m.pickers).1.length = _
    exact hlen
  · intro j hj
    obtain ⟨i, hig, hival⟩ := hpair j hj
    have himem : i ∈ idle_indices m.pickers := List.get?_mem hig
    obtain ⟨p, hpg, hps⟩ := hidle i himem
    have hjlt : j < m.pending_orders.length :=
      lt_of_lt_of_le hj (min_le_right _ _)
    cases ho : m.pending_orders.get? j with
    | none =>
        have : m.pending_orders.length ≤ j := List.get?_eq_none.1 ho
        omega
    | some o =>
        refine ⟨i, o, p, hig, rfl, hpg, hps, ?_, ?_⟩
        · show (assign_orders_loop w m.pending_orders (idle_indices m.pickers)
              m.pickers).1.get? i = _
          rw [hival, ho, hpg]
          rfl
        · exact (assign_order_sets_order w p o hps
            (hinv p (List.get?_mem hpg) hps)).1
  · intro i hi
    show (assign_orders_loop w m.pending_orders (idle_indices m.pickers)
        m.pickers).1.get? i = _
    exact hsame i hi

/-- A swarm with two fresh idle agents and one pending order, exercising
both a real pairing and an untouched agent. -/
def c9_w_m : PickerSwarmManager :=
  { pickers := [init_picker w36 1, init_picker w36 2],
    pending_orders := [c1_order], completed_orders := [], current_time := 0 }

/-- Witness for C9. -/
theorem c9_assign_orders_fifo_witness :
    ((c9_w_m.pending_orders = [] ∨ idle_indices c9_w_m.pickers = []) →
        assign_orders w36 c9_w_m = c9_w_m)
    ∧ (assign_orders w36 c9_w_m).pending_orders
        = c9_w_m.pending_orders.drop
            (min (idle_indices c9_w_m.pickers).length c9_w_m.pending_orders.length)
    ∧ (assign_orders w36 c9_w_m).pickers.length = c9_w_m.pickers.length
    ∧ (∀ j, j < min (idle_indices c9_w_m.pickers).length c9_w_m.pending_orders.length →
        ∃ i o p, (idle_indices c9_w_m.pickers).get? j = some i
          ∧ c9_w_m.pending_orders.get? j = some o
          ∧ c9_w_m.pickers.get? i = some p
          ∧ p.state = .idle
          ∧ (assign_orders w36 c9_w_m).pickers.get? i = some (assign_order w36 p o).1
          ∧ (assign_order w36 p o).1.current_order = some o)
    ∧ (∀ i, i ∉ (idle_indices c9_w_m.pickers).take
          (min (idle_indices c9_w_m.pickers).length c9_w_m.pending_orders.length) →
        (assign_orders w36 c9_w_m).pickers.get? i = c9_w_m.pickers.get? i) :=
  c9_assign_orders_fifo w36 c9_w_m (by
    intro p hp _
    have h : p = init_picker w36 1 ∨ p = init_picker w36 2 := by
      simpa [c9_w_m] using hp
    rcases h with h | h <;> (subst h; rfl))

/-! ## C10: shared entrance cell, no mutual exclusion -/

/-- C10. Every agent the constructor creates stands on the first entrance
cell; `_update_exiting`, once the exit dwell has elapsed, resets the
agent's position to that same first entrance cell without consulting any
peer; and consequently every swarm of two or more agents starts with two
distinct agents (distinct ids) occupying one and the same cell, so mutual
exclusion of agent positions fails at the entrance. -/
theorem c10_entrance_collision (w : LargeWarehouse) (n : Nat) (t : ℚ) (p : Picker) :
    (∀ q ∈ (mk_manager w n).pickers, q.position = w.entrances.headI)
    ∧ (t - p.pick_start_time ≥ 2 →
        (update_exiting w t p).1.position = w.entrances.headI)
    ∧ (2 ≤ n → ∃ q1 q2, q1 ∈ (mk_manager w n).pickers ∧ q2 ∈ (mk_manager w n).pickers
        ∧ q1.picker_id ≠ q2.picker_id ∧ q1.position = q2.position) := by
  refine ⟨?_, ?_, ?_⟩
  · intro q hq
    simp only [mk_manager, List.mem_map] at hq
    obtain ⟨i, _, rfl⟩ := hq
    rfl
  · intro h
    unfold update_exiting
    rw [if_pos h]
  · intro hn
    refine ⟨init_picker w 1, init_picker w 2, ?_, ?_, (by omega : (1:Nat) ≠ 2), rfl⟩
    · simp only [mk_manager, List.mem_map]
      exact ⟨0, List.mem_range.2 (by omega), rfl⟩
    · simp only [mk_manager, List.mem_map]
      exact ⟨1, List.mem_range.2 (by omega), rfl⟩

/-- Witness for C10 at the default warehouse with two agents. -/
theorem c10_entrance_collision_witness :
    (∀ q ∈ (mk_manager w36 2).pickers, q.position = w36.entrances.headI)
    ∧ (update_exiting w36 2 (init_picker w36 1)).1.position = w36.entrances.headI
    ∧ ∃ q1 q2, q1 ∈ (mk_manager w36 2).pickers ∧ q2 ∈ (mk_manager w36 2).pickers
        ∧ q1.picker_id ≠ q2.picker_id ∧ q1.position = q2.position := by
  obtain ⟨h1, h2, h3⟩ := c10_entrance_collision w36 2 2 (init_picker w36 1)
  exact ⟨h1, h2 (by norm_num [init_picker]), h3 (by norm_num)⟩
